import Mathlib

/-
  Verification development for the vscode-quirrel language-tooling core
  (src/wasm/find_declaration.cpp, extract_symbols.cpp, semantic_tokens.cpp,
  analyze.cpp, utils.cpp).

  The C++ visitors are shallowly embedded as pure Lean functions over an
  inductive syntax-tree type.  Machine ints hold source positions only and
  never overflow in the modelled code, so they are modelled as Int/Nat.
  The external parser (sq_parsetoast) is modelled as an `Option Node`
  argument: `none` is a parse failure, `some root` a successful parse.
-/

namespace Quirrel

/-- Source span of a syntax node: lineStart()/columnStart()/lineEnd()/columnEnd().
    Lines are 1-based, columns 0-based, exactly as in the C++ code. -/
structure Span where
  lineStart : Int
  columnStart : Int
  lineEnd : Int
  columnEnd : Int
deriving DecidableEq, Repr

/-- DeclarationFinder::containsPosition (find_declaration.cpp:41-51):
    the position-containment test of the declaration resolver. -/
def containsPosition (targetLine targetCol : Int) (sp : Span) : Bool :=
  if targetLine < sp.lineStart ∨ targetLine > sp.lineEnd then false
  else if targetLine = sp.lineStart ∧ targetCol < sp.columnStart then false
  else if targetLine = sp.lineEnd ∧ targetCol ≥ sp.columnEnd then false
  else true

/-- The containment predicate exactly as claim C3 words it: target line within
    [startLine, endLine] inclusive, on the start line the column within
    [startCol, endCol), and on the end line the column strictly below endCol. -/
def claimedContainsPosition (targetLine targetCol : Int) (sp : Span) : Prop :=
  (sp.lineStart ≤ targetLine ∧ targetLine ≤ sp.lineEnd) ∧
  (targetLine = sp.lineStart → sp.columnStart ≤ targetCol ∧ targetCol < sp.columnEnd) ∧
  (targetLine = sp.lineEnd → targetCol < sp.columnEnd)

instance (tl tc : Int) (sp : Span) : Decidable (claimedContainsPosition tl tc sp) := by
  unfold claimedContainsPosition; infer_instance

/-- escapeJson (utils.cpp): JSON string escaping of quote, backslash,
    newline, carriage return and tab. -/
def escapeJsonChar (c : Char) : String :=
  if c = '"' then "\\\""
  else if c = '\\' then "\\\\"
  else if c = '\n' then "\\n"
  else if c = '\r' then "\\r"
  else if c = '\t' then "\\t"
  else String.singleton c

/-- escapeJson (utils.cpp:3-27). -/
def escapeJson (s : String) : String :=
  String.join (s.data.map escapeJsonChar)

/-- One slot of an import statement (SQModuleImportSlot). -/
structure ImportSlot where
  name : String
  aliasName : Option String
  line : Int
  column : Int
deriving DecidableEq, Repr

/-- The syntax tree consumed by the three walkers.  One constructor per
    TreeOp case the C++ visitors distinguish; the binary/unary/increment
    op ranges of the default case are collapsed into single constructors,
    and ops with no traversal action (literals, base, root, ...) are
    `literal`/`otherLeaf`.  Class and table members are (key, value, isStatic)
    triples; `none` fields model null child pointers. -/
inductive Node where
  | block (isRoot : Bool) (stmts : List Node) (span : Span)
  | funcDecl (isCtor : Bool) (name : String) (params : List Node) (body : Option Node) (span : Span)
  | paramDecl (name : String) (span : Span)
  | classDecl (classKey : Option Node) (classBase : Option Node)
      (members : List (Option Node × Option Node × Bool)) (span : Span)
  | enumDecl (name : String) (consts : List String) (span : Span)
  | varDecl (name : String) (assignable : Bool) (init : Option Node) (span : Span)
  | constDecl (name : String) (val : Option Node) (span : Span)
  | declGroup (decls : List Node) (span : Span)
  | destructure (initExpr : Option Node) (decls : List Node) (span : Span)
  | importStmt (moduleAlias : Option String) (slots : List ImportSlot) (span : Span)
  | foreachStmt (idx : Option Node) (val : Option Node) (container : Option Node)
      (body : Option Node) (span : Span)
  | forStmt (init : Option Node) (cond : Option Node) (modifier : Option Node)
      (body : Option Node) (span : Span)
  | whileStmt (cond : Option Node) (body : Option Node) (span : Span)
  | doWhileStmt (body : Option Node) (cond : Option Node) (span : Span)
  | tryStmt (tryBody : Option Node) (exceptionId : Option Node) (catchBody : Option Node)
      (span : Span)
  | ifStmt (cond : Option Node) (thenBranch : Option Node) (elseBranch : Option Node)
      (span : Span)
  | switchStmt (expr : Option Node) (cases : List (Option Node × Option Node))
      (defaultCase : Option Node) (span : Span)
  | terminate (arg : Option Node) (span : Span)
  | exprStmt (expr : Option Node) (span : Span)
  | id (name : String) (span : Span)
  | declExpr (decl : Option Node) (span : Span)
  | call (callee : Option Node) (args : List Node) (span : Span)
  | getField (receiver : Option Node) (fieldName : String) (span : Span)
  | setField (receiver : Option Node) (val : Option Node) (span : Span)
  | getSlot (receiver : Option Node) (key : Option Node) (span : Span)
  | setSlot (receiver : Option Node) (key : Option Node) (val : Option Node) (span : Span)
  | ternary (a : Option Node) (b : Option Node) (c : Option Node) (span : Span)
  | arrayExpr (inits : List Node) (span : Span)
  | comma (exprs : List Node) (span : Span)
  | tableDecl (members : List (Option Node × Option Node × Bool)) (span : Span)
  | codeBlockExpr (blk : Option Node) (span : Span)
  | binExpr (lhs : Option Node) (rhs : Option Node) (span : Span)
  | unExpr (arg : Option Node) (span : Span)
  | incExpr (arg : Option Node) (span : Span)
  | literal (isString : Bool) (s : String) (span : Span)
  | otherLeaf (span : Span)

/-- Node span accessor (Node::lineStart() etc.). -/
def Node.span : Node → Span
  | .block _ _ sp => sp
  | .funcDecl _ _ _ _ sp => sp
  | .paramDecl _ sp => sp
  | .classDecl _ _ _ sp => sp
  | .enumDecl _ _ sp => sp
  | .varDecl _ _ _ sp => sp
  | .constDecl _ _ sp => sp
  | .declGroup _ sp => sp
  | .destructure _ _ sp => sp
  | .importStmt _ _ sp => sp
  | .foreachStmt _ _ _ _ sp => sp
  | .forStmt _ _ _ _ sp => sp
  | .whileStmt _ _ sp => sp
  | .doWhileStmt _ _ sp => sp
  | .tryStmt _ _ _ sp => sp
  | .ifStmt _ _ _ sp => sp
  | .switchStmt _ _ _ sp => sp
  | .terminate _ sp => sp
  | .exprStmt _ sp => sp
  | .id _ sp => sp
  | .declExpr _ sp => sp
  | .call _ _ sp => sp
  | .getField _ _ sp => sp
  | .setField _ _ sp => sp
  | .getSlot _ _ sp => sp
  | .setSlot _ _ _ sp => sp
  | .ternary _ _ _ sp => sp
  | .arrayExpr _ sp => sp
  | .comma _ sp => sp
  | .tableDecl _ sp => sp
  | .codeBlockExpr _ sp => sp
  | .binExpr _ _ sp => sp
  | .unExpr _ sp => sp
  | .incExpr _ sp => sp
  | .literal _ _ sp => sp
  | .otherLeaf sp => sp

/-- The name() accessor of declaration subclasses (VarDecl::name,
    ParamDecl::name, Id::name), used where the C++ code calls name()
    through a typed pointer (foreach idx/val, destructured decls,
    catch-clause exception id, parameters). -/
def Node.declName : Node → String
  | .varDecl name _ _ _ => name
  | .paramDecl name _ => name
  | .id name _ => name
  | .funcDecl _ name _ _ _ => name
  | .enumDecl name _ _ => name
  | .constDecl name _ _ => name
  | _ => ""

/-- VarDecl::isAssignable through a typed pointer. -/
def Node.assignable : Node → Bool
  | .varDecl _ a _ _ => a
  | _ => false

end Quirrel

namespace DeclarationFinder

open Quirrel

/-- One SymbolEntry of a scope frame (find_declaration.cpp:24-28). -/
structure Symbol where
  name : String
  node : Node
  kind : String

/-- A scope frame.  The C++ Scope owns a vector the finder scans in reverse
    (newest declaration first); the frame is modelled as a list with the
    newest declaration at the head and scanned in order, which is the same
    observable lookup behaviour. -/
abbrev Frame := List Symbol

/-- The finder's mutable state: the scope chain (innermost frame first,
    modelling the Scope::parent chain from currentScope) and the result
    triple found/declarationNode/declarationKind. -/
structure FindSt where
  scopes : List Frame
  found : Bool
  declarationNode : Option Node
  declarationKind : Option String

/-- DeclarationFinder::declareSymbol: append a symbol to the innermost frame
    (no-op when there is no current scope).  The C++ null-name check has no
    counterpart because the embedding has no null strings. -/
def declareSymbol (name : String) (node : Node) (kind : String) (st : FindSt) : FindSt :=
  match st.scopes with
  | [] => st
  | f :: rest => { st with scopes := (⟨name, node, kind⟩ :: f) :: rest }

/-- DeclarationFinder::findSymbol: innermost-first scan of the chain,
    newest-first scan within a frame. -/
def findSymbol (name : String) : List Frame → Option Symbol
  | [] => none
  | f :: rest =>
      match f.find? (fun s => s.name == name) with
      | some s => some s
      | none => findSymbol name rest

/-- DeclarationFinder::pushScope. -/
def pushScope (st : FindSt) : FindSt :=
  { st with scopes := [] :: st.scopes }

/-- DeclarationFinder::popScope: restores the parent frame; no-op when the
    innermost frame has no parent. -/
def popScope (st : FindSt) : FindSt :=
  match st.scopes with
  | _ :: g :: rest => { st with scopes := g :: rest }
  | _ => st

/-- Record the result at a matched identifier (find_declaration.cpp:408-412). -/
def recordFound (sym : Symbol) (st : FindSt) : FindSt :=
  { st with found := true, declarationNode := some sym.node,
            declarationKind := some sym.kind }

/-- DeclarationFinder::getClassName: the class name, only when the class key
    is a plain identifier. -/
def getClassName (classKey : Option Node) : Option String :=
  match classKey with
  | some (.id name _) => some name
  | _ => none

/-- The parameter loop of the TO_FUNCTION case: declare every parameter. -/
def declareParams (params : List Node) (st : FindSt) : FindSt :=
  match params with
  | [] => st
  | p :: ps => declareParams ps (declareSymbol p.declName p "parameter" st)

/-- The binding loop of the TO_DESTRUCTURE case: declare every extracted
    binding with its own variable/binding kind. -/
def declareDestructured (decls : List Node) (st : FindSt) : FindSt :=
  match decls with
  | [] => st
  | d :: ds =>
      declareDestructured ds
        (declareSymbol d.declName d (if d.assignable then "variable" else "binding") st)

/-- The slot loop of the TO_IMPORT case: a wildcard slot is skipped, an
    aliased slot declares the alias, otherwise the slot name; the declared
    node is the import statement itself. -/
def declareImportSlots (imp : Node) (slots : List ImportSlot) (st : FindSt) : FindSt :=
  match slots with
  | [] => st
  | slot :: rest =>
      if slot.name = "*" then declareImportSlots imp rest st
      else
        declareImportSlots imp rest
          (declareSymbol (slot.aliasName.getD slot.name) imp "import" st)

section Visit

variable (targetLine targetCol : Int)

mutual

/-- DeclarationFinder::visitNode (find_declaration.cpp:113-545).  The
    `if (found) break` of the C++ child loops is mirrored in the list
    helpers below; visitNode itself returns immediately once found. -/
def visitNode (n : Node) (st : FindSt) : FindSt :=
  if st.found then st else
  match n with
  | .block isRoot stmts _ =>
      let st1 := if isRoot then st else pushScope st
      let st2 := visitList stmts st1
      if isRoot then st2 else popScope st2
  | .funcDecl _ name params body _ =>
      let st1 := if name ≠ "" then declareSymbol name n "function" st else st
      let st2 := pushScope st1
      let st3 := declareParams params st2
      let st4 := visitOpt body st3
      popScope st4
  | .classDecl classKey classBase members _ =>
      let st1 :=
        match getClassName classKey with
        | some name => declareSymbol name n "class" st
        | none => st
      let st2 := visitOpt classBase st1
      visitMembers members st2
  | .enumDecl name _ _ =>
      declareSymbol name n "enum" st
  | .varDecl name assignable init _ =>
      let st1 := visitOpt init st
      declareSymbol name n (if assignable then "variable" else "binding") st1
  | .constDecl name val _ =>
      let st1 := visitOpt val st
      declareSymbol name n "constant" st1
  | .declGroup decls _ =>
      visitList decls st
  | .destructure initExpr decls _ =>
      let st1 := visitOpt initExpr st
      declareDestructured decls st1
  | .importStmt moduleAlias slots _ =>
      if slots.isEmpty then
        match moduleAlias with
        | some name => declareSymbol name n "import" st
        | none => st
      else
        declareImportSlots n slots st
  | .foreachStmt idx val container body _ =>
      let st1 := visitOpt container st
      let st2 := pushScope st1
      let st3 :=
        match idx with
        | some i => declareSymbol i.declName i "variable" st2
        | none => st2
      let st4 :=
        match val with
        | some v => declareSymbol v.declName v "variable" st3
        | none => st3
      let st5 := visitOpt body st4
      popScope st5
  | .forStmt init cond modifier body _ =>
      let st1 := pushScope st
      let st2 := visitOpt init st1
      let st3 := visitOpt cond st2
      let st4 := visitOpt modifier st3
      let st5 := visitOpt body st4
      popScope st5
  | .whileStmt cond body _ =>
      visitOpt body (visitOpt cond st)
  | .doWhileStmt body cond _ =>
      visitOpt cond (visitOpt body st)
  | .tryStmt tryBody exceptionId catchBody _ =>
      let st1 := visitOpt tryBody st
      let st2 := pushScope st1
      let st3 :=
        match exceptionId with
        | some e => declareSymbol e.declName e "exception" st2
        | none => st2
      let st4 := visitOpt catchBody st3
      popScope st4
  | .ifStmt cond thenBranch elseBranch _ =>
      visitOpt elseBranch (visitOpt thenBranch (visitOpt cond st))
  | .switchStmt expr cases defaultCase _ =>
      let st1 := visitOpt expr st
      let st2 := visitCases cases st1
      visitOpt defaultCase st2
  | .terminate arg _ =>
      visitOpt arg st
  | .exprStmt expr _ =>
      visitOpt expr st
  | .id name sp =>
      if containsPosition targetLine targetCol sp then
        match findSymbol name st.scopes with
        | some sym => recordFound sym st
        | none => st
      else st
  | .declExpr decl _ =>
      visitOpt decl st
  | .call callee args _ =>
      let st1 := visitOpt callee st
      visitList args st1
  | .getField receiver _ _ =>
      visitOpt receiver st
  | .setField receiver val _ =>
      visitOpt val (visitOpt receiver st)
  | .getSlot receiver key _ =>
      visitOpt key (visitOpt receiver st)
  | .setSlot receiver key val _ =>
      visitOpt val (visitOpt key (visitOpt receiver st))
  | .ternary a b c _ =>
      visitOpt c (visitOpt b (visitOpt a st))
  | .arrayExpr inits _ =>
      visitList inits st
  | .comma exprs _ =>
      visitList exprs st
  | .tableDecl members _ =>
      visitMembers members st
  | .codeBlockExpr blk _ =>
      visitOpt blk st
  | .binExpr lhs rhs _ =>
      visitOpt rhs (visitOpt lhs st)
  | .unExpr arg _ =>
      visitOpt arg st
  | .incExpr arg _ =>
      visitOpt arg st
  | .paramDecl _ _ => st
  | .literal _ _ _ => st
  | .otherLeaf _ => st

/-- `if (x) x->visit(this)`. -/
def visitOpt (o : Option Node) (st : FindSt) : FindSt :=
  match o with
  | some n => visitNode n st
  | none => st

/-- Child-statement loop with the `if (found) break` guard. -/
def visitList (l : List Node) (st : FindSt) : FindSt :=
  match l with
  | [] => st
  | n :: ns => if st.found then st else visitList ns (visitNode n st)

/-- Class/table member loop: only member values are visited. -/
def visitMembers (l : List (Option Node × Option Node × Bool)) (st : FindSt) : FindSt :=
  match l with
  | [] => st
  | (_, v, _) :: ns => if st.found then st else visitMembers ns (visitOpt v st)

/-- Switch-case loop: `if (found) break; case value; case statement`. -/
def visitCases (l : List (Option Node × Option Node)) (st : FindSt) : FindSt :=
  match l with
  | [] => st
  | (v, s) :: ns => if st.found then st else visitCases ns (visitOpt s (visitOpt v st))

end

end Visit

/-- Initial finder state: one root scope, nothing found
    (the DeclarationFinder constructor). -/
def initSt : FindSt := ⟨[[]], false, none, none⟩

/-- findDeclarationAt (find_declaration.cpp:549-582).  The external parse is
    an `Option Node` argument; output is the JSON result string. -/
def findDeclarationAt (parsed : Option Node) (line col : Int) : String :=
  match parsed with
  | none => "\x7b\"found\":false\x7d"
  | some root =>
      let finder := visitNode line col root initSt
      match finder.found, finder.declarationNode with
      | true, some decl =>
          "\x7b\"found\":true,\"location\":\x7b" ++
          "\"line\":" ++ toString decl.span.lineStart ++
          ",\"col\":" ++ toString decl.span.columnStart ++
          ",\"endLine\":" ++ toString decl.span.lineEnd ++
          ",\"endCol\":" ++ toString decl.span.columnEnd ++
          ",\"kind\":\"" ++ (finder.declarationKind.getD "") ++ "\"\x7d\x7d"
      | _, _ => "\x7b\"found\":false\x7d"

end DeclarationFinder

namespace SemanticTokens

open Quirrel

/-- Token types, matching the TypeScript legend order
    (semantic_tokens.cpp:18-27). -/
def ttVariable : Nat := 0
def ttParameter : Nat := 1
def ttFunction : Nat := 2
def ttClass : Nat := 3
def ttEnum : Nat := 4
def ttEnumMember : Nat := 5
def ttProperty : Nat := 6
def ttImport : Nat := 7

/-- Token modifier bits (semantic_tokens.cpp:30-33). -/
def tmDeclaration : Nat := 1
def tmReadonly : Nat := 2

/-- One semantic token (semantic_tokens.cpp:35-41): 1-based line,
    0-based column. -/
structure Token where
  line : Int
  col : Int
  length : Int
  type : Nat
  modifiers : Nat
deriving DecidableEq, Repr

/-- SemanticTokenExtractor::buildLineIndex helper: offsets of the characters
    following each newline. -/
def newlineOffsets : List Char → Nat → List Nat
  | [], _ => []
  | c :: rest, i => if c = '\n' then (i + 1) :: newlineOffsets rest (i + 1)
                    else newlineOffsets rest (i + 1)

/-- SemanticTokenExtractor::buildLineIndex (semantic_tokens.cpp:67-74):
    line 1 starts at offset 0, later lines after each newline. -/
def buildLineIndex (source : List Char) : List Nat :=
  0 :: newlineOffsets source 0

/-- An identifier character in the whole-word boundary test:
    `isalnum(c) || c == '_'` (ASCII). -/
def isIdentChar (c : Char) : Bool :=
  c.isAlphanum || c = '_'

/-- One iteration test of the search loop (semantic_tokens.cpp:92-100):
    the name matches at window position `i`, the left neighbour is a
    non-identifier character unless the match starts the window, and the
    right neighbour is a non-identifier character unless the match ends it. -/
def wholeWordAt (window nm : List Char) (i : Nat) : Bool :=
  decide ((window.drop i).take nm.length = nm) &&
  (decide (i = 0) || !isIdentChar (window.getD (i - 1) ' ')) &&
  (decide (i + nm.length ≥ window.length) || !isIdentChar (window.getD (i + nm.length) ' '))

/-- The search loop of findNameInLine (semantic_tokens.cpp:92-101), with the
    loop bound made explicit as a structural fuel counter: the loop runs at
    most windowLength + 1 times, and the fuel never runs out before the exit
    condition fires, so the fuel-free and fuelled loops agree. -/
def searchLoop (window nm : List Char) : Nat → Nat → Option Nat
  | 0, _ => none
  | fuel + 1, i =>
      if i + nm.length ≤ window.length then
        if wholeWordAt window nm i then some i
        else searchLoop window nm fuel (i + 1)
      else none

def searchName (window nm : List Char) (i : Nat) : Option Nat :=
  searchLoop window nm (window.length + 1) i

/-- `lineStart` of findNameInLine (semantic_tokens.cpp:81). -/
def lineStartOf (source : List Char) (line : Int) : Nat :=
  (buildLineIndex source).getD (line - 1).toNat 0

/-- `lineEnd` of findNameInLine (semantic_tokens.cpp:82). -/
def lineEndOf (source : List Char) (line : Int) : Nat :=
  if line < ((buildLineIndex source).length : Int) then
    (buildLineIndex source).getD line.toNat 0
  else source.length

/-- The search window findNameInLine scans: the declaration's start line
    from the recorded column to the end of the line. -/
def lineWindow (source : List Char) (line startCol : Int) : List Char :=
  (source.drop (lineStartOf source line + startCol.toNat)).take
    (lineEndOf source line - (lineStartOf source line + startCol.toNat))

/-- The whole line (window from column 0). -/
def lineChars (source : List Char) (line : Int) : List Char :=
  lineWindow source line 0

/-- SemanticTokenExtractor::findNameInLine (semantic_tokens.cpp:78-103).
    A negative start column makes the C++ size_t sum `lineStart + startCol`
    wrap far past lineEnd, so the `searchStart >= lineEnd` guard yields -1;
    the model returns `none` directly in that case. -/
def findNameInLine (source : List Char) (line startCol : Int) (nm : String) : Option Int :=
  if line < 1 ∨ line > ((buildLineIndex source).length : Int) then none
  else if startCol < 0 then none
  else if lineStartOf source line + startCol.toNat ≥ lineEndOf source line then none
  else
    match searchName (lineWindow source line startCol) nm.data 0 with
    | some i => some (startCol + (i : Int))
    | none => none

/-- Scope entry of the semantic extractor (semantic_tokens.cpp:50-55). -/
structure Symbol where
  name : String
  node : Node
  kind : String
  isReadonly : Bool

abbrev Frame := List Symbol

/-- Extractor state: collected tokens and the scope chain (innermost frame
    first, newest entry first within a frame — same observable behaviour
    as the C++ push_back vector scanned in reverse). -/
structure SemSt where
  tokens : List Token
  scopes : List Frame

def declareSymbol (name : String) (node : Node) (kind : String) (isReadonly : Bool)
    (st : SemSt) : SemSt :=
  match st.scopes with
  | [] => st
  | f :: rest => { st with scopes := (⟨name, node, kind, isReadonly⟩ :: f) :: rest }

def findSymbol (name : String) : List Frame → Option Symbol
  | [] => none
  | f :: rest =>
      match f.find? (fun s => s.name == name) with
      | some s => some s
      | none => findSymbol name rest

def pushScope (st : SemSt) : SemSt :=
  { st with scopes := [] :: st.scopes }

def popScope (st : SemSt) : SemSt :=
  match st.scopes with
  | _ :: g :: rest => { st with scopes := g :: rest }
  | _ => st

/-- SemanticTokenExtractor::addToken (semantic_tokens.cpp:133-137): only
    positive-length, non-negative-column tokens are recorded. -/
def addToken (line col length : Int) (ty mods : Nat) (st : SemSt) : SemSt :=
  if 0 < length ∧ 0 ≤ col then
    { st with tokens := st.tokens ++ [⟨line, col, length, ty, mods⟩] }
  else st

/-- SemanticTokenExtractor::addTokenForNode. -/
def addTokenForNode (n : Node) (length : Int) (ty mods : Nat) (st : SemSt) : SemSt :=
  addToken n.span.lineStart n.span.columnStart length ty mods st

/-- SemanticTokenExtractor::addTokenForNamedDecl (semantic_tokens.cpp:144-152):
    searches the declaration's start line for the name; silently emits
    nothing when the search misses. -/
def addTokenForNamedDecl (source : List Char) (n : Node) (nm : String) (ty mods : Nat)
    (st : SemSt) : SemSt :=
  if nm = "" then st
  else
    match findNameInLine source n.span.lineStart n.span.columnStart nm with
    | some col => addToken n.span.lineStart col (nm.length : Int) ty mods st
    | none => st

/-- SemanticTokenExtractor::kindToTokenType (semantic_tokens.cpp:154-165). -/
def kindToTokenType (kind : String) : Nat :=
  if kind = "variable" then ttVariable
  else if kind = "binding" then ttVariable
  else if kind = "parameter" then ttParameter
  else if kind = "function" then ttFunction
  else if kind = "class" then ttClass
  else if kind = "enum" then ttEnum
  else if kind = "constant" then ttVariable
  else if kind = "import" then ttImport
  else if kind = "exception" then ttVariable
  else ttVariable

/-- SemanticTokenExtractor::getClassName. -/
def getClassName (classKey : Option Node) : Option String :=
  match classKey with
  | some (.id name _) => some name
  | _ => none

/-- Parameter loop of the TO_FUNCTION case (semantic_tokens.cpp:240-247). -/
def declareParams (params : List Node) (st : SemSt) : SemSt :=
  match params with
  | [] => st
  | p :: ps =>
      let st1 :=
        if p.declName ≠ "" then
          declareSymbol p.declName p "parameter" false
            (addTokenForNode p (p.declName.length : Int) ttParameter tmDeclaration st)
        else st
      declareParams ps st1

/-- Binding loop of the TO_DESTRUCTURE case (semantic_tokens.cpp:344-352). -/
def declareDestructured (source : List Char) (decls : List Node) (st : SemSt) : SemSt :=
  match decls with
  | [] => st
  | d :: ds =>
      let st1 :=
        if d.declName ≠ "" then
          let readonly := !d.assignable
          let mods := tmDeclaration + (if readonly then tmReadonly else 0)
          declareSymbol d.declName d (if readonly then "binding" else "variable") readonly
            (addTokenForNamedDecl source d d.declName ttVariable mods st)
        else st
      declareDestructured source ds st1

/-- Slot loop of the TO_IMPORT case (semantic_tokens.cpp:377-403). -/
def declareImportSlots (source : List Char) (imp : Node) (slots : List ImportSlot)
    (st : SemSt) : SemSt :=
  match slots with
  | [] => st
  | slot :: rest =>
      if slot.name = "*" then declareImportSlots source imp rest st
      else
        let st1 :=
          match slot.aliasName with
          | some a =>
              let st1 :=
                match findNameInLine source slot.line (slot.column + (slot.name.length : Int)) a with
                | some aliasCol => addToken slot.line aliasCol (a.length : Int) ttImport tmDeclaration st
                | none => st
              declareSymbol a imp "import" true st1
          | none =>
              declareSymbol slot.name imp "import" true
                (addToken slot.line slot.column (slot.name.length : Int) ttImport tmDeclaration st)
        declareImportSlots source imp rest st1

section Visit

variable (source : List Char)

mutual

/-- SemanticTokenExtractor::visitNode (semantic_tokens.cpp:209-687):
    full traversal, no early exit. -/
def semVisit (n : Node) (st : SemSt) : SemSt :=
  match n with
  | .block isRoot stmts _ =>
      let st1 := if isRoot then st else pushScope st
      let st2 := semVisitList stmts st1
      if isRoot then st2 else popScope st2
  | .funcDecl _ name params body _ =>
      let st1 :=
        if name ≠ "" then
          declareSymbol name n "function" false
            (addTokenForNamedDecl source n name ttFunction tmDeclaration st)
        else st
      let st2 := pushScope st1
      let st3 := declareParams params st2
      let st4 := semVisitOpt body st3
      popScope st4
  | .classDecl classKey classBase members _ =>
      let st1 :=
        match getClassName classKey, classKey with
        | some name, some keyNode =>
            declareSymbol name n "class" false
              (addTokenForNode keyNode (name.length : Int) ttClass tmDeclaration st)
        | _, _ => st
      let st2 := semVisitOpt classBase st1
      semVisitMembers members st2
  | .enumDecl name _ _ =>
      if name ≠ "" then
        declareSymbol name n "enum" false
          (addTokenForNamedDecl source n name ttEnum tmDeclaration st)
      else st
  | .varDecl name assignable init _ =>
      let readonly := !assignable
      let st1 := semVisitOpt init st
      if name ≠ "" then
        let mods := tmDeclaration + (if readonly then tmReadonly else 0)
        declareSymbol name n (if readonly then "binding" else "variable") readonly
          (addTokenForNamedDecl source n name ttVariable mods st1)
      else st1
  | .constDecl name val _ =>
      let st1 := semVisitOpt val st
      if name ≠ "" then
        declareSymbol name n "constant" true
          (addTokenForNamedDecl source n name ttVariable (tmDeclaration + tmReadonly) st1)
      else st1
  | .declGroup decls _ =>
      semVisitList decls st
  | .destructure initExpr decls _ =>
      let st1 := semVisitOpt initExpr st
      declareDestructured source decls st1
  | .importStmt moduleAlias slots _ =>
      if slots.isEmpty then
        match moduleAlias with
        | some name =>
            let st1 :=
              match findNameInLine source n.span.lineStart n.span.columnStart "as" with
              | some asCol =>
                  match findNameInLine source n.span.lineStart (asCol + 2) name with
                  | some aliasCol =>
                      addToken n.span.lineStart aliasCol (name.length : Int) ttImport tmDeclaration st
                  | none => st
              | none => st
            declareSymbol name n "import" true st1
        | none => st
      else
        declareImportSlots source n slots st
  | .foreachStmt idx val container body _ =>
      let st1 := semVisitOpt container st
      let st2 := pushScope st1
      let st3 :=
        match idx with
        | some i =>
            if i.declName ≠ "" then
              declareSymbol i.declName i "variable" false
                (addTokenForNamedDecl source n i.declName ttVariable tmDeclaration st2)
            else st2
        | none => st2
      let st4 :=
        match val with
        | some v =>
            if v.declName ≠ "" then
              declareSymbol v.declName v "variable" false
                (addTokenForNamedDecl source n v.declName ttVariable tmDeclaration st3)
            else st3
        | none => st3
      let st5 := semVisitOpt body st4
      popScope st5
  | .forStmt init cond modifier body _ =>
      let st1 := pushScope st
      let st2 := semVisitOpt init st1
      let st3 := semVisitOpt cond st2
      let st4 := semVisitOpt modifier st3
      let st5 := semVisitOpt body st4
      popScope st5
  | .whileStmt cond body _ =>
      semVisitOpt body (semVisitOpt cond st)
  | .doWhileStmt body cond _ =>
      semVisitOpt cond (semVisitOpt body st)
  | .tryStmt tryBody exceptionId catchBody _ =>
      let st1 := semVisitOpt tryBody st
      let st2 := pushScope st1
      let st3 :=
        match exceptionId with
        | some e =>
            if e.declName ≠ "" then
              declareSymbol e.declName e "exception" false
                (addTokenForNode e (e.declName.length : Int) ttVariable tmDeclaration st2)
            else st2
        | none => st2
      let st4 := semVisitOpt catchBody st3
      popScope st4
  | .ifStmt cond thenBranch elseBranch _ =>
      semVisitOpt elseBranch (semVisitOpt thenBranch (semVisitOpt cond st))
  | .switchStmt expr cases defaultCase _ =>
      let st1 := semVisitOpt expr st
      let st2 := semVisitCases cases st1
      semVisitOpt defaultCase st2
  | .terminate arg _ =>
      semVisitOpt arg st
  | .exprStmt expr _ =>
      semVisitOpt expr st
  | .id name sp =>
      if name = "" ∨ name = "this" ∨ name = "base" then st
      else
        match findSymbol name st.scopes with
        | some sym =>
            let mods := if sym.isReadonly then tmReadonly else 0
            addToken sp.lineStart sp.columnStart (name.length : Int)
              (kindToTokenType sym.kind) mods st
        | none => st
  | .declExpr decl _ =>
      semVisitOpt decl st
  | .call callee args _ =>
      let st1 := semVisitOpt callee st
      semVisitList args st1
  | .getField receiver fieldName sp =>
      let enumSym :=
        match receiver with
        | some (.id rname _) =>
            match findSymbol rname st.scopes with
            | some sym => if sym.kind = "enum" then some sym else none
            | none => none
        | _ => none
      match enumSym, receiver with
      | some _, some recv =>
          let rname := recv.declName
          let st1 := addTokenForNode recv (rname.length : Int) ttEnum 0 st
          if fieldName ≠ "" then
            let fieldLen : Int := fieldName.length
            addToken sp.lineEnd (sp.columnEnd - fieldLen) fieldLen ttEnumMember tmReadonly st1
          else st1
      | _, _ =>
          let st1 := semVisitOpt receiver st
          if fieldName ≠ "" then
            let fieldLen : Int := fieldName.length
            addToken sp.lineEnd (sp.columnEnd - fieldLen) fieldLen ttProperty 0 st1
          else st1
  | .setField receiver val _ =>
      semVisitOpt val (semVisitOpt receiver st)
  | .getSlot receiver key _ =>
      semVisitOpt key (semVisitOpt receiver st)
  | .setSlot receiver key val _ =>
      semVisitOpt val (semVisitOpt key (semVisitOpt receiver st))
  | .ternary a b c _ =>
      semVisitOpt c (semVisitOpt b (semVisitOpt a st))
  | .arrayExpr inits _ =>
      semVisitList inits st
  | .comma exprs _ =>
      semVisitList exprs st
  | .tableDecl members _ =>
      semVisitMembers members st
  | .codeBlockExpr blk _ =>
      semVisitOpt blk st
  | .binExpr lhs rhs _ =>
      semVisitOpt rhs (semVisitOpt lhs st)
  | .unExpr arg _ =>
      semVisitOpt arg st
  | .incExpr arg _ =>
      semVisitOpt arg st
  | .paramDecl _ _ => st
  | .literal _ _ _ => st
  | .otherLeaf _ => st

def semVisitOpt (o : Option Node) (st : SemSt) : SemSt :=
  match o with
  | some n => semVisit n st
  | none => st

def semVisitList (l : List Node) (st : SemSt) : SemSt :=
  match l with
  | [] => st
  | n :: ns => semVisitList ns (semVisit n st)

def semVisitMembers (l : List (Option Node × Option Node × Bool)) (st : SemSt) : SemSt :=
  match l with
  | [] => st
  | (_, v, _) :: ns => semVisitMembers ns (semVisitOpt v st)

def semVisitCases (l : List (Option Node × Option Node)) (st : SemSt) : SemSt :=
  match l with
  | [] => st
  | (v, s) :: ns => semVisitCases ns (semVisitOpt s (semVisitOpt v st))

end

end Visit

/-- The comparator of the final std::sort (semantic_tokens.cpp:188-191),
    as a non-strict total preorder: by line, then by column. -/
def tokenLE (a b : Token) : Bool :=
  a.line < b.line || (a.line = b.line && a.col ≤ b.col)

/-- Insertion of one token into a sorted list; `sortTokens` models the
    effect of std::sort with the line/column comparator (the C++ sort is
    unstable, which only permutes tokens with equal line and column). -/
def insertToken (t : Token) : List Token → List Token
  | [] => [t]
  | u :: us => if tokenLE t u then t :: u :: us else u :: insertToken t us

def sortTokens : List Token → List Token
  | [] => []
  | t :: ts => insertToken t (sortTokens ts)

def tokenJson (t : Token) : String :=
  "\x7b\"line\":" ++ toString t.line ++ ",\"col\":" ++ toString t.col ++
  ",\"length\":" ++ toString t.length ++ ",\"type\":" ++ toString t.type ++
  ",\"modifiers\":" ++ toString t.modifiers ++ "\x7d"

/-- SemanticTokenExtractor::toJson (semantic_tokens.cpp:186-207). -/
def tokensToJson (ts : List Token) : String :=
  "\x7b\"tokens\":[" ++ String.intercalate "," ((sortTokens ts).map tokenJson) ++ "]\x7d"

/-- Initial extractor state: one root scope, no tokens. -/
def initSemSt : SemSt := ⟨[], [[]]⟩

/-- The sorted token list the extractor produces for a parsed tree. -/
def semanticTokenList (source : List Char) (root : Node) : List Token :=
  sortTokens (semVisit source root initSemSt).tokens

/-- extractSemanticTokens (semantic_tokens.cpp:690-712). -/
def extractSemanticTokens (parsed : Option Node) (source : List Char) : String :=
  match parsed with
  | none => "\x7b\"tokens\":[]\x7d"
  | some root => tokensToJson (semVisit source root initSemSt).tokens

end SemanticTokens

namespace Outline

open Quirrel

/-- SymbolExtractor state (extract_symbols.cpp:27-30): the JSON output
    accumulated so far, the 64-entry first-element-per-level array, the
    current nesting depth, and an instrumentation flag `ok` that turns
    false as soon as an unguarded firstAtLevel access goes out of bounds
    (such an access is undefined behaviour in the C++).  `depth` is an int
    in C++; the modelled visitor keeps startChildren/endChildren balanced,
    so the Nat truncation of the decrement is never exercised. -/
structure OutSt where
  out : String
  firstAtLevel : List Bool
  depth : Nat
  ok : Bool

/-- An unguarded `firstAtLevel[i]` read (value, updated instrumentation). -/
def faGet (i : Nat) (st : OutSt) : Bool × OutSt :=
  (st.firstAtLevel.getD i true, { st with ok := st.ok && decide (i < 64) })

/-- An unguarded `firstAtLevel[i] = b` write. -/
def faSet (i : Nat) (b : Bool) (st : OutSt) : OutSt :=
  { st with firstAtLevel := st.firstAtLevel.set i b, ok := st.ok && decide (i < 64) }

/-- SymbolExtractor::startSymbolWithRange (extract_symbols.cpp:36-48):
    reads and writes firstAtLevel[depth] without a bound check. -/
def startSymbolWithRange (name kind : String) (startNode endNode : Node) (st : OutSt) : OutSt :=
  let (first, st1) := faGet st.depth st
  let st2 := if !first then { st1 with out := st1.out ++ "," } else st1
  let st3 := faSet st2.depth false st2
  { st3 with out := st3.out ++
      "\x7b\"name\":\"" ++ escapeJson name ++ "\"" ++
      ",\"kind\":\"" ++ kind ++ "\"" ++
      ",\"range\":\x7b" ++
      "\"startLine\":" ++ toString startNode.span.lineStart ++
      ",\"startCol\":" ++ toString startNode.span.columnStart ++
      ",\"endLine\":" ++ toString endNode.span.lineEnd ++
      ",\"endCol\":" ++ toString endNode.span.columnEnd ++
      "\x7d" }

/-- SymbolExtractor::startSymbol. -/
def startSymbol (name kind : String) (node : Node) (st : OutSt) : OutSt :=
  startSymbolWithRange name kind node node st

/-- SymbolExtractor::startChildren (extract_symbols.cpp:50-54): increments
    depth unconditionally, writes firstAtLevel only under the depth check. -/
def startChildren (st : OutSt) : OutSt :=
  let st1 := { st with out := st.out ++ ",\"children\":[", depth := st.depth + 1 }
  if st1.depth < 64 then { st1 with firstAtLevel := st1.firstAtLevel.set st1.depth true }
  else st1

/-- SymbolExtractor::endChildren. -/
def endChildren (st : OutSt) : OutSt :=
  { st with out := st.out ++ "]", depth := st.depth - 1 }

/-- SymbolExtractor::endSymbol. -/
def endSymbol (st : OutSt) : OutSt :=
  { st with out := st.out ++ "\x7d" }

/-- SymbolExtractor::getClassName (extract_symbols.cpp:66-71): the class
    key when it is a plain identifier, the placeholder otherwise. -/
def getClassName (classKey : Option Node) : String :=
  match classKey with
  | some (.id name _) => name
  | _ => "<anonymous>"

/-- SymbolExtractor::getMemberName (extract_symbols.cpp:74-85): identifier
    keys and string-literal keys name a member; other keys do not. -/
def getMemberName (key : Option Node) : Option String :=
  match key with
  | some (.id name _) => some name
  | some (.literal true s _) => some s
  | _ => none

/-- FunctionDecl::body() through a static_cast, for visitFunctionBody. -/
def funcBody : Node → Option Node
  | .funcDecl _ _ _ b _ => b
  | _ => none

/-- `decl && decl->op() == TO_FUNCTION`. -/
def isFunctionNode : Option Node → Bool
  | some (.funcDecl false _ _ _ _) => true
  | _ => false

/-- `decl && decl->op() == TO_CONSTRUCTOR`. -/
def isConstructorNode : Option Node → Bool
  | some (.funcDecl true _ _ _ _) => true
  | _ => false

/-- The declaration behind a TO_DECL_EXPR value, if any
    (extract_symbols.cpp:121-124). -/
def declBehind : Node → Option Node
  | .declExpr d _ => d
  | _ => none

/-- SymbolExtractor::getInitializerEnd (extract_symbols.cpp:180-186).
    A TO_DECL_EXPR with a null declaration would be dereferenced by the
    C++; parser output never produces one, modelled as the fallback. -/
def getInitializerEnd (init : Option Node) (fallback : Node) : Node :=
  match init with
  | none => fallback
  | some (.declExpr (some d) _) => d
  | some (.declExpr none _) => fallback
  | some i => i

/-- The per-enum-constant emission loop of the TO_ENUM case
    (extract_symbols.cpp:246-250): consts reuse the enum node's location. -/
def emitEnumConsts (consts : List String) (enumNode : Node) (st : OutSt) : OutSt :=
  match consts with
  | [] => st
  | c :: cs => emitEnumConsts cs enumNode (endSymbol (startSymbol c "EnumMember" enumNode st))

/-- The entry half of SymbolExtractor::collectChildren (extract_symbols.cpp:
    89-96): save the first-element flag of the current level, set it to true
    and swap in an empty output stream.  The saved values are recovered from
    the pre-state by collectRestore. -/
def collectInto (st : OutSt) : OutSt :=
  let r := faGet st.depth st
  faSet r.2.depth true { r.2 with out := "" }

/-- The exit half of SymbolExtractor::collectChildren (extract_symbols.cpp:
    99-100): restore the saved output stream and first-element flag. -/
def collectRestore (savedOut : String) (savedFirst : Bool) (st : OutSt) : OutSt :=
  faSet st.depth savedFirst { st with out := savedOut }

/-- The append step of SymbolExtractor::visitFunctionBody
    (extract_symbols.cpp:110-112). -/
def appendChildren (children : String) (st : OutSt) : OutSt :=
  if children ≠ "" then
    { st with out := st.out ++ ",\"children\":[" ++ children ++ "]" }
  else st

mutual

/-- SymbolExtractor::visitNode (extract_symbols.cpp:193-329).
    collectChildren/visitFunctionBody are inlined around the recursive body
    visit via collectInto/collectRestore/appendChildren so that the mutual
    recursion stays structural. -/
def outVisit (n : Node) (st : OutSt) : OutSt :=
  match n with
  | .block _ stmts _ =>
      outVisitList stmts st
  | .funcDecl isCtor name params body sp =>
      if name = "" then st
      else
        let fn := Node.funcDecl isCtor name params body sp
        let st1 := startSymbol name (if isCtor then "Constructor" else "Function") fn st
        let st2 :=
          match body with
          | some b =>
              let stC := outVisit b (collectInto st1)
              appendChildren stC.out
                (collectRestore st1.out (st1.firstAtLevel.getD st1.depth true) stC)
          | none => st1
        endSymbol st2
  | .classDecl classKey _ members _ =>
      let st1 := startSymbol (getClassName classKey) "Class" n st
      let r := emitMembersLoop members false st1
      let st2 := if r.2 then endChildren r.1 else r.1
      endSymbol st2
  | .enumDecl name consts _ =>
      let st1 := startSymbol name "Enum" n st
      let st2 :=
        if consts.isEmpty then st1
        else endChildren (emitEnumConsts consts n (startChildren st1))
      endSymbol st2
  | .varDecl name assignable init _ =>
      let st1 := startSymbolWithRange name (if assignable then "Variable" else "Binding")
                   n (getInitializerEnd init n) st
      let st2 := emitInitializerChildren init st1
      endSymbol st2
  | .constDecl name val _ =>
      let st1 := startSymbolWithRange name "Constant" n (getInitializerEnd val n) st
      let st2 := emitInitializerChildren val st1
      endSymbol st2
  | .declGroup decls _ =>
      outVisitList decls st
  | .ifStmt _ thenBranch elseBranch _ =>
      outVisitOpt elseBranch (outVisitOpt thenBranch st)
  | .whileStmt _ body _ =>
      outVisitOpt body st
  | .forStmt _ _ _ body _ =>
      outVisitOpt body st
  | .foreachStmt _ _ _ body _ =>
      outVisitOpt body st
  | .switchStmt _ cases defaultCase _ =>
      outVisitOpt defaultCase (outVisitCaseStmts cases st)
  | .tryStmt tryBody _ catchBody _ =>
      outVisitOpt catchBody (outVisitOpt tryBody st)
  | _ => st

/-- SymbolExtractor::emitTableMember (extract_symbols.cpp:116-140), with
    visitFunctionBody inlined at the method/constructor bodies.  A member
    with a null value would be dereferenced by the C++; parser output never
    produces one, modelled as a no-op. -/
def emitTableMember (member : Option Node × Option Node × Bool) (st : OutSt) : OutSt :=
  match member with
  | (some key, some val, isStatic) =>
      match getMemberName (some key) with
      | none => st
      | some memberName =>
          let memberDecl := declBehind val
          if isFunctionNode memberDecl || isFunctionNode (some val) then
            endSymbol (emitFuncBodyChildren val (startSymbol memberName "Method" val st))
          else if isConstructorNode memberDecl || isConstructorNode (some val) then
            endSymbol (emitFuncBodyChildren val (startSymbol memberName "Constructor" val st))
          else
            endSymbol (startSymbol memberName (if isStatic then "Property" else "Field") key st)
  | _ => st

/-- The method/constructor-body half of emitTableMember (extract_symbols.cpp:
    124-133): when the member's value is a TO_DECL_EXPR holding a function
    with a body, the body's symbols are collected and appended as children
    (visitFunctionBody inlined as collectInto/collectRestore/appendChildren);
    any other value leaves the state unchanged. -/
def emitFuncBodyChildren (val : Node) (st1 : OutSt) : OutSt :=
  match val with
  | .declExpr d _ =>
      match d with
      | some f =>
          match f with
          | .funcDecl _ _ _ b _ =>
              match b with
              | some bb =>
                  let stC := outVisit bb (collectInto st1)
                  appendChildren stC.out
                    (collectRestore st1.out (st1.firstAtLevel.getD st1.depth true) stC)
              | none => st1
          | _ => st1
      | none => st1
  | _ => st1

/-- The named-member loop shared by the TO_CLASS case and
    emitInitializerChildren (extract_symbols.cpp:154-175, 225-234):
    members without a resolvable name are skipped, startChildren runs
    before the first named member; returns the hasMembers flag. -/
def emitMembersLoop (members : List (Option Node × Option Node × Bool))
    (hasMembers : Bool) (st : OutSt) : OutSt × Bool :=
  match members with
  | [] => (st, hasMembers)
  | m :: ms =>
      match getMemberName m.1 with
      | none => emitMembersLoop ms hasMembers st
      | some _ =>
          let st1 := if hasMembers then st else startChildren st
          emitMembersLoop ms true (emitTableMember m st1)

/-- SymbolExtractor::emitInitializerChildren (extract_symbols.cpp:143-177). -/
def emitInitializerChildren (init : Option Node) (st : OutSt) : OutSt :=
  match init with
  | none => st
  | some (.declExpr (some (.tableDecl members _)) _) =>
      let r := emitMembersLoop members false st
      if r.2 then endChildren r.1 else r.1
  | some (.declExpr (some (.classDecl _ _ members _)) _) =>
      let r := emitMembersLoop members false st
      if r.2 then endChildren r.1 else r.1
  | some _ => st

def outVisitOpt (o : Option Node) (st : OutSt) : OutSt :=
  match o with
  | some n => outVisit n st
  | none => st

def outVisitList (l : List Node) (st : OutSt) : OutSt :=
  match l with
  | [] => st
  | n :: ns => outVisitList ns (outVisit n st)

/-- Switch-case loop of the outline builder: only case statements are
    visited. -/
def outVisitCaseStmts (l : List (Option Node × Option Node)) (st : OutSt) : OutSt :=
  match l with
  | [] => st
  | (_, s) :: ns => outVisitCaseStmts ns (outVisitOpt s st)

end

/-- Initial extractor state (extract_symbols.cpp:189-191). -/
def initOutSt : OutSt := ⟨"", List.replicate 64 true, 0, true⟩

end Outline

namespace EntryPoints

open Quirrel

/-- The file-static mutable state of the translation units:
    `lastError` (extract_symbols.cpp:13) and `diagFirst` (analyze.cpp:14).
    `diagOutput` is a pointer to a stack-local stream that is always null
    between calls; it is modelled by the accumulator inside analyzeCode. -/
structure Globals where
  lastError : String
  diagFirst : Bool
deriving DecidableEq, Repr

/-- One SQCompilerMessage (analyze.cpp:16-32). -/
structure Diagnostic where
  line : Int
  col : Int
  width : Int
  fileName : String
  intId : Int
  textId : String
  message : String
  isError : Bool
deriving DecidableEq, Repr

/-- diagnosticHandler (analyze.cpp:16-32), acting on the pair
    (accumulated diagOutput text, diagFirst). -/
def diagnosticHandler (msg : Diagnostic) (acc : String × Bool) : String × Bool :=
  let out := if !acc.2 then acc.1 ++ "," else acc.1
  (out ++ "\x7b\"line\":" ++ toString msg.line ++
    ",\"col\":" ++ toString msg.col ++
    ",\"len\":" ++ toString msg.width ++
    ",\"file\":\"" ++ escapeJson msg.fileName ++ "\"" ++
    ",\"intId\":" ++ toString msg.intId ++
    ",\"textId\":\"" ++ escapeJson msg.textId ++ "\"" ++
    ",\"message\":\"" ++ escapeJson msg.message ++ "\"" ++
    ",\"isError\":" ++ (if msg.isError then "true" else "false") ++ "\x7d", false)

/-- parseAndExtractSymbols (extract_symbols.cpp:333-367).  `parsed` is the
    external parse result; `parseErr` is the message the compile-error
    handler stored during the parse (none when the handler never fired). -/
def parseAndExtractSymbols (parsed : Option Node) (parseErr : Option String)
    (g : Globals) : String × Globals :=
  let g1 := { g with lastError := "" }
  let g2 := match parseErr with
            | some m => { g1 with lastError := m }
            | none => g1
  match parsed with
  | none =>
      let err := if g2.lastError = "" then "Parse failed" else g2.lastError
      ("\x7b\"error\":\"" ++ escapeJson err ++ "\",\"symbols\":[]\x7d", g2)
  | some root =>
      let st := Outline.outVisit root Outline.initOutSt
      ("\x7b\"error\":null,\"symbols\":[" ++ st.out ++ "]\x7d", g2)

/-- findDeclarationAt as a host entry point: touches no static state. -/
def findDeclarationEntry (parsed : Option Node) (line col : Int)
    (g : Globals) : String × Globals :=
  (DeclarationFinder.findDeclarationAt parsed line col, g)

/-- extractSemanticTokens as a host entry point: touches no static state. -/
def semanticTokensEntry (parsed : Option Node) (source : List Char)
    (g : Globals) : String × Globals :=
  (SemanticTokens.extractSemanticTokens parsed source, g)

/-- analyzeCode (analyze.cpp:34-66).  `diags` is the ordered stream of
    diagnostics the external parser/analyzer delivers through the handler
    for this source. -/
def analyzeCode (diags : List Diagnostic) (g : Globals) : String × Globals :=
  let acc := diags.foldl (fun a m => diagnosticHandler m a) ("\x7b\"messages\":[", true)
  (acc.1 ++ "]\x7d", { g with diagFirst := acc.2 })

end EntryPoints

namespace DeclarationFinder

open Quirrel

/-- All declared nodes of a scope chain, innermost frame first. -/
def chainNodes : List Frame → List Node
  | [] => []
  | f :: rest => f.map (fun s => s.node) ++ chainNodes rest

/-- The scope chain of `st'` is the chain of `st` with extra symbols pushed
    onto the innermost frame only, each declared for a node of size at most
    `bound` (the sub-tree being visited); outer frames are untouched. -/
def HeadExt (bound : Nat) (st st' : FindSt) : Prop :=
  ∀ f rest, st.scopes = f :: rest →
    ∃ extra, st'.scopes = (extra ++ f) :: rest ∧ ∀ s ∈ extra, sizeOf s.node ≤ bound

/-- Provenance of a declaration found between `st` and `st'`: either the
    search was already over, or the recorded node was declared in the chain
    of `st` or somewhere inside the sub-tree being visited (size bound). -/
def Prov (bound : Nat) (st st' : FindSt) : Prop :=
  st'.found = true →
    st.found = true ∨
    ∃ d, st'.declarationNode = some d ∧
      (d ∈ chainNodes st.scopes ∨ sizeOf d ≤ bound)

/-- One traversal step of the finder: the scope chain grows only at the
    innermost frame with nodes from the visited sub-tree, and any newly
    recorded declaration comes from the chain or from the sub-tree. -/
def Step (b : Nat) (st st' : FindSt) : Prop :=
  HeadExt b st st' ∧ (st.scopes ≠ [] → Prov b st st')

end DeclarationFinder

namespace SemanticTokens

open Quirrel

/-- The invariant claim C5 states of every emitted token. -/
def TokValid (t : Token) : Prop := 0 < t.length ∧ 0 ≤ t.col

/-- All collected tokens are valid. -/
def TokInv (st : SemSt) : Prop := ∀ t ∈ st.tokens, TokValid t

/-- The boundary property exactly as claim C6 words it for a match of `nm`
    reported at column `c` of `line`: non-identifier characters (or the line
    edge) on BOTH sides of the match. -/
def claimedWholeWord (source : List Char) (line : Int) (nm : String) (c : Int) : Prop :=
  (c ≤ 0 ∨ isIdentChar ((lineChars source line).getD (c - 1).toNat ' ') = false) ∧
  ((lineChars source line).length ≤ (c + nm.length).toNat ∨
    isIdentChar ((lineChars source line).getD (c + nm.length).toNat ' ') = false)

instance (source : List Char) (line : Int) (nm : String) (c : Int) :
    Decidable (claimedWholeWord source line nm c) := by
  unfold claimedWholeWord; infer_instance

end SemanticTokens

namespace Outline

open Quirrel

/-- Does any member of the list have a resolvable name (the hasMembers test
    of the member loops)? -/
def anyNamed (ms : List (Option Node × Option Node × Bool)) : Bool :=
  ms.any (fun m => (getMemberName m.1).isSome)

mutual

/-- The nesting depth of the children blocks the outline builder opens via
    startChildren below a node: the maximal amount by which `depth` grows
    while the node is visited.  Follows the structure of outVisit; function
    bodies are collected at the same depth, so they contribute their own
    depth unchanged. -/
def emitDepth : Node → Nat
  | .block _ stmts _ => emitDepthList stmts
  | .funcDecl _ name _ body _ =>
      if name = "" then 0
      else
        match body with
        | some b => emitDepth b
        | none => 0
  | .classDecl _ _ members _ =>
      if anyNamed members then 1 + emitDepthMembers members else 0
  | .enumDecl _ consts _ => if consts.isEmpty then 0 else 1
  | .varDecl _ _ init _ => emitDepthInit init
  | .constDecl _ val _ => emitDepthInit val
  | .declGroup decls _ => emitDepthList decls
  | .ifStmt _ thenBranch elseBranch _ =>
      max (emitDepthOpt thenBranch) (emitDepthOpt elseBranch)
  | .whileStmt _ body _ => emitDepthOpt body
  | .forStmt _ _ _ body _ => emitDepthOpt body
  | .foreachStmt _ _ _ body _ => emitDepthOpt body
  | .switchStmt _ cases defaultCase _ =>
      max (emitDepthCaseStmts cases) (emitDepthOpt defaultCase)
  | .tryStmt tryBody _ catchBody _ =>
      max (emitDepthOpt tryBody) (emitDepthOpt catchBody)
  | _ => 0

/-- Depth excursion of emitInitializerChildren. -/
def emitDepthInit : Option Node → Nat
  | some (.declExpr (some (.tableDecl ms _)) _) =>
      if anyNamed ms then 1 + emitDepthMembers ms else 0
  | some (.declExpr (some (.classDecl _ _ ms _)) _) =>
      if anyNamed ms then 1 + emitDepthMembers ms else 0
  | _ => 0

/-- Depth excursion of emitTableMember: a method/constructor body's. -/
def emitDepthMember : (Option Node × Option Node × Bool) → Nat
  | (_, some (.declExpr (some (.funcDecl _ _ _ (some b) _)) _), _) => emitDepth b
  | _ => 0

def emitDepthMembers : List (Option Node × Option Node × Bool) → Nat
  | [] => 0
  | m :: ms =>
      max (if (getMemberName m.1).isSome then emitDepthMember m else 0)
        (emitDepthMembers ms)

def emitDepthOpt : Option Node → Nat
  | some n => emitDepth n
  | none => 0

def emitDepthList : List Node → Nat
  | [] => 0
  | n :: ns => max (emitDepth n) (emitDepthList ns)

def emitDepthCaseStmts : List (Option Node × Option Node) → Nat
  | [] => 0
  | (_, s) :: cs => max (emitDepthOpt s) (emitDepthCaseStmts cs)

end

end Outline

namespace Demo

open Quirrel

/- The source `local x = 1; local x = x + 1;` (claim C1): two declarations
   of `x` at file scope, the identifier `x` at line 1 column 23 inside the
   second initializer. -/

def lit1 : Node := .literal false "1" ⟨1, 10, 1, 11⟩
def var1 : Node := .varDecl "x" true (some lit1) ⟨1, 6, 1, 11⟩
def useX : Node := .id "x" ⟨1, 23, 1, 24⟩
def lit2 : Node := .literal false "1" ⟨1, 27, 1, 28⟩
def init2 : Node := .binExpr (some useX) (some lit2) ⟨1, 23, 1, 28⟩
def var2 : Node := .varDecl "x" true (some init2) ⟨1, 19, 1, 28⟩
def redeclRoot : Node := .block true [var1, var2] ⟨1, 0, 1, 29⟩

/- The source `foreach (i, v in items) { }` (claim C2). -/

def idxVar : Node := .varDecl "i" true none ⟨1, 9, 1, 10⟩
def valVar : Node := .varDecl "v" true none ⟨1, 12, 1, 13⟩
def items : Node := .id "items" ⟨1, 17, 1, 22⟩
def loopBody : Node := .block false [] ⟨1, 24, 1, 26⟩
def foreachLoop : Node :=
  .foreachStmt (some idxVar) (some valVar) (some items) (some loopBody) ⟨1, 0, 1, 26⟩

/- A class statement whose key is a string literal, not a plain identifier
   (claim C7): an anonymous class. -/

def anonClass : Node := .classDecl (some (.literal true "k" ⟨1, 6, 1, 9⟩)) none [] ⟨1, 0, 1, 12⟩
def anonClassRoot : Node := .block true [anonClass] ⟨1, 0, 1, 12⟩

/- The one-line source `xab = 1` (claim C6): searching for `ab` from
   column 1 matches inside the larger identifier `xab`. -/

def xabSource : List Char := "xab = 1".data

/- An enum with one constant (claim C10 witness): its outline nests one
   children level. -/

def enumNode : Node := .enumDecl "E" ["A"] ⟨1, 0, 1, 14⟩


/- A class with an identifier key (claim C5 witness): the extractor emits a
   class token for the key node. -/

def semClassRoot : Node := .classDecl (some (.id "C" ⟨1, 6, 1, 7⟩)) none [] ⟨1, 0, 3, 1⟩

def semTok : SemanticTokens.Token := ⟨1, 6, 1, SemanticTokens.ttClass, SemanticTokens.tmDeclaration⟩

end Demo

namespace Proofs

open Quirrel

/-- C3 (counterexample): the containment test as claim C3 words it fails on
    a multi-line node.  For the node spanning (1,5)-(2,3) and the target
    (1,10), containsPosition returns true, but the target column 10 is not
    within [startCol, endCol) = [5, 3) on the start line. -/
theorem c3_counterexample :
    containsPosition 1 10 ⟨1, 5, 2, 3⟩ = true ∧
    ¬ claimedContainsPosition 1 10 ⟨1, 5, 2, 3⟩ := by
  decide

/-- C3 (amended): containsPosition returns true exactly when the target line
    is within [startLine, endLine] inclusive, on the start line the target
    column is at least startCol, and on the end line the target column is
    strictly less than endCol; the upper bound applies on the start line
    only when the start line is also the end line. -/
theorem c3_amended_containment (tl tc : Int) (sp : Span) :
    containsPosition tl tc sp = true ↔
      (sp.lineStart ≤ tl ∧ tl ≤ sp.lineEnd) ∧
      (tl = sp.lineStart → sp.columnStart ≤ tc) ∧
      (tl = sp.lineEnd → tc < sp.columnEnd) := by
  unfold containsPosition
  split_ifs <;> (first | (simp_all; omega) | simp_all)

/-- C4: the declaration resolver's traversal short-circuits globally: once a
    match has been recorded (found is set), visiting any further node is the
    identity on the finder state, so no node is visited to any effect, the
    recorded declaration node and kind never change, and the query keeps its
    single first-match result. -/
theorem c4_short_circuit (tl tc : Int) (n : Node) (st : DeclarationFinder.FindSt)
    (h : st.found = true) :
    DeclarationFinder.visitNode tl tc n st = st := by
  rw [DeclarationFinder.visitNode.eq_def]
  simp [h]

/-- C4 witness: at a concrete found state the visit of the concrete tree
    changes nothing. -/
theorem c4_short_circuit_witness :
    DeclarationFinder.visitNode 1 1 Demo.redeclRoot ⟨[[]], true, none, none⟩ =
      ⟨[[]], true, none, none⟩ :=
  c4_short_circuit 1 1 Demo.redeclRoot ⟨[[]], true, none, none⟩ rfl

/-- C8: on a failed parse (no AST root) every public entry point returns a
    complete well-formed result rather than throwing: getOutline yields a
    structured error string (never null) with an empty symbols list, and
    findDeclaration yields found = false. -/
theorem c8_parse_failure (parseErr : Option String) (g : EntryPoints.Globals)
    (line col : Int) :
    (∃ err, (EntryPoints.parseAndExtractSymbols none parseErr g).1 =
      "\x7b\"error\":\"" ++ err ++ "\",\"symbols\":[]\x7d") ∧
    (EntryPoints.findDeclarationEntry none line col g).1 = "\x7b\"found\":false\x7d" := by
  refine ⟨⟨escapeJson (if (match parseErr with
    | some m => m | none => "") = "" then "Parse failed" else
      (match parseErr with | some m => m | none => "")), ?_⟩, rfl⟩
  cases parseErr <;> rfl

/-- C9: all four public entry points are pure functions of their inputs:
    with the file-static mutable state (lastError, diagFirst, and the
    diagOutput sink) modelled explicitly, the returned result string never
    depends on the static state left behind by any earlier calls, because
    each entry point resets the statics it reads. -/
theorem c9_purity :
    (∀ parsed parseErr g g', (EntryPoints.parseAndExtractSymbols parsed parseErr g).1 =
        (EntryPoints.parseAndExtractSymbols parsed parseErr g').1) ∧
    (∀ parsed line col g g', (EntryPoints.findDeclarationEntry parsed line col g).1 =
        (EntryPoints.findDeclarationEntry parsed line col g').1) ∧
    (∀ parsed source g g', (EntryPoints.semanticTokensEntry parsed source g).1 =
        (EntryPoints.semanticTokensEntry parsed source g').1) ∧
    (∀ diags g g', (EntryPoints.analyzeCode diags g).1 =
        (EntryPoints.analyzeCode diags g').1) := by
  refine ⟨fun parsed parseErr g g' => ?_, fun _ _ _ _ _ => rfl, fun _ _ _ _ => rfl,
    fun _ _ _ => rfl⟩
  cases parseErr <;> cases parsed <;> rfl

end Proofs

namespace DeclarationFinder

open Quirrel

theorem visit_found_id (tl tc : Int) (n : Node) (st : FindSt) (h : st.found = true) :
    visitNode tl tc n st = st := by
  rw [visitNode.eq_def]; simp [h]

theorem visitOpt_found_id (tl tc : Int) (o : Option Node) (st : FindSt)
    (h : st.found = true) : visitOpt tl tc o st = st := by
  cases o with
  | none => rfl
  | some n => rw [visitOpt]; exact visit_found_id tl tc n st h

theorem visitList_found_id (tl tc : Int) (l : List Node) (st : FindSt)
    (h : st.found = true) : visitList tl tc l st = st := by
  cases l with
  | nil => rfl
  | cons n ns => rw [visitList]; simp [h]

theorem visitMembers_found_id (tl tc : Int) (l : List (Option Node × Option Node × Bool))
    (st : FindSt) (h : st.found = true) : visitMembers tl tc l st = st := by
  cases l with
  | nil => rfl
  | cons m ms => rw [visitMembers]; simp [h]

theorem visitCases_found_id (tl tc : Int) (l : List (Option Node × Option Node))
    (st : FindSt) (h : st.found = true) : visitCases tl tc l st = st := by
  cases l with
  | nil => rfl
  | cons c cs => rw [visitCases]; simp [h]

theorem declareSymbol_found (nm : String) (nd : Node) (k : String) (st : FindSt) :
    (declareSymbol nm nd k st).found = st.found := by
  unfold declareSymbol; cases st.scopes <;> rfl

theorem declareSymbol_declNode (nm : String) (nd : Node) (k : String) (st : FindSt) :
    (declareSymbol nm nd k st).declarationNode = st.declarationNode := by
  unfold declareSymbol; cases st.scopes <;> rfl

theorem pushScope_found (st : FindSt) : (pushScope st).found = st.found := rfl

theorem pushScope_declNode (st : FindSt) :
    (pushScope st).declarationNode = st.declarationNode := rfl

theorem popScope_found (st : FindSt) : (popScope st).found = st.found := by
  unfold popScope
  cases h : st.scopes with
  | nil => rfl
  | cons f rest => cases rest <;> rfl

theorem popScope_declNode (st : FindSt) :
    (popScope st).declarationNode = st.declarationNode := by
  unfold popScope
  cases h : st.scopes with
  | nil => rfl
  | cons f rest => cases rest <;> rfl

theorem declareParams_found (ps : List Node) (st : FindSt) :
    (declareParams ps st).found = st.found := by
  induction ps generalizing st with
  | nil => rfl
  | cons p ps ih => rw [declareParams]; rw [ih]; exact declareSymbol_found _ _ _ _

theorem declareParams_declNode (ps : List Node) (st : FindSt) :
    (declareParams ps st).declarationNode = st.declarationNode := by
  induction ps generalizing st with
  | nil => rfl
  | cons p ps ih => rw [declareParams]; rw [ih]; exact declareSymbol_declNode _ _ _ _

theorem declareDestructured_found (ds : List Node) (st : FindSt) :
    (declareDestructured ds st).found = st.found := by
  induction ds generalizing st with
  | nil => rfl
  | cons d ds ih => rw [declareDestructured]; rw [ih]; exact declareSymbol_found _ _ _ _

theorem declareDestructured_declNode (ds : List Node) (st : FindSt) :
    (declareDestructured ds st).declarationNode = st.declarationNode := by
  induction ds generalizing st with
  | nil => rfl
  | cons d ds ih => rw [declareDestructured]; rw [ih]; exact declareSymbol_declNode _ _ _ _

theorem declareImportSlots_found (imp : Node) (slots : List ImportSlot) (st : FindSt) :
    (declareImportSlots imp slots st).found = st.found := by
  induction slots generalizing st with
  | nil => rfl
  | cons s ss ih =>
      rw [declareImportSlots]
      split
      · exact ih st
      · rw [ih]; exact declareSymbol_found _ _ _ _

theorem declareImportSlots_declNode (imp : Node) (slots : List ImportSlot) (st : FindSt) :
    (declareImportSlots imp slots st).declarationNode = st.declarationNode := by
  induction slots generalizing st with
  | nil => rfl
  | cons s ss ih =>
      rw [declareImportSlots]
      split
      · exact ih st
      · rw [ih]; exact declareSymbol_declNode _ _ _ _

theorem chainNodes_cons (f : Frame) (rest : List Frame) :
    chainNodes (f :: rest) = f.map (fun s => s.node) ++ chainNodes rest := rfl

theorem findSymbol_mem (nm : String) (S : List Frame) (sym : Symbol)
    (h : findSymbol nm S = some sym) : sym.node ∈ chainNodes S := by
  induction S with
  | nil => simp [findSymbol] at h
  | cons f rest ih =>
      rw [findSymbol] at h
      cases hf : f.find? (fun s => s.name == nm) with
      | some s =>
          rw [hf] at h
          have hss : s = sym := by injection h
          have hm : s ∈ f := List.mem_of_find?_eq_some hf
          rw [chainNodes_cons]
          exact List.mem_append.2 (Or.inl (List.mem_map.2 ⟨s, hm, by rw [hss]⟩))
      | none =>
          rw [hf] at h
          rw [chainNodes_cons]
          exact List.mem_append.2 (Or.inr (ih h))

theorem Step.refl (b : Nat) (st : FindSt) : Step b st st := by
  constructor
  · intro f rest h
    exact ⟨[], by simpa using h, by simp⟩
  · intro _ hf
    exact Or.inl hf

theorem Step.of_eq (b : Nat) (st st' : FindSt) (h : st' = st) : Step b st st' :=
  h ▸ Step.refl b st

theorem Step.mono (b b' : Nat) (st st' : FindSt) (hb : b ≤ b')
    (h : Step b st st') : Step b' st st' := by
  obtain ⟨he, hp⟩ := h
  refine ⟨fun f rest hs => ?_, fun hne hf => ?_⟩
  · obtain ⟨extra, h1, h2⟩ := he f rest hs
    exact ⟨extra, h1, fun s hsm => le_trans (h2 s hsm) hb⟩
  · rcases hp hne hf with h | ⟨d, hd1, hd2⟩
    · exact Or.inl h
    · exact Or.inr ⟨d, hd1, hd2.imp id (fun h => le_trans h hb)⟩

theorem chain_sub_of_headExt (b : Nat) (st st' : FindSt) (f : Frame) (rest : List Frame)
    (hs : st.scopes = f :: rest) (he : HeadExt b st st') :
    ∀ d ∈ chainNodes st'.scopes, d ∈ chainNodes st.scopes ∨ sizeOf d ≤ b := by
  obtain ⟨extra, h1, h2⟩ := he f rest hs
  intro d hd
  rw [h1, chainNodes_cons, List.map_append] at hd
  rw [hs, chainNodes_cons]
  rcases List.mem_append.1 hd with h | h
  · rcases List.mem_append.1 h with h | h
    · obtain ⟨s, hsm, heq⟩ := List.mem_map.1 h
      exact Or.inr (heq ▸ h2 s hsm)
    · exact Or.inl (List.mem_append.2 (Or.inl h))
  · exact Or.inl (List.mem_append.2 (Or.inr h))

theorem Step.comp (b1 b2 b : Nat) (st st' st'' : FindSt)
    (hb1 : b1 ≤ b) (hb2 : b2 ≤ b)
    (h1 : Step b1 st st') (h2 : Step b2 st' st'')
    (hdecl : st'.found = true → st''.declarationNode = st'.declarationNode ∧
      st''.found = true) :
    Step b st st'' := by
  obtain ⟨he1, hp1⟩ := h1
  obtain ⟨he2, hp2⟩ := h2
  refine ⟨fun f rest hs => ?_, fun hne hf => ?_⟩
  · obtain ⟨e1, hs1, hb1'⟩ := he1 f rest hs
    obtain ⟨e2, hs2, hb2'⟩ := he2 (e1 ++ f) rest hs1
    refine ⟨e2 ++ e1, by rw [hs2, List.append_assoc], fun s hsm => ?_⟩
    rcases List.mem_append.1 hsm with h | h
    · exact le_trans (hb2' s h) hb2
    · exact le_trans (hb1' s h) hb1
  · obtain ⟨f, rest, hs⟩ := List.exists_cons_of_ne_nil hne
    by_cases hf' : st'.found = true
    · rcases hp1 hne hf' with h | ⟨d, hd1, hd2⟩
      · exact Or.inl h
      · exact Or.inr ⟨d, (hdecl hf').1 ▸ hd1,
          hd2.imp id (fun h => le_trans h hb1)⟩
    · have hne' : st'.scopes ≠ [] := by
        obtain ⟨e1, hs1, _⟩ := he1 f rest hs
        simp [hs1]
      rcases hp2 hne' hf with h | ⟨d, hd1, hd2⟩
      · exact absurd h hf'
      · rcases hd2 with hmem | hsz
        · rcases chain_sub_of_headExt b1 st st' f rest hs he1 d hmem with h | h
          · exact Or.inr ⟨d, hd1, Or.inl h⟩
          · exact Or.inr ⟨d, hd1, Or.inr (le_trans h hb1)⟩
        · exact Or.inr ⟨d, hd1, Or.inr (le_trans hsz hb2)⟩

theorem Step.declare (b : Nat) (nm : String) (nd : Node) (k : String) (st : FindSt)
    (hb : sizeOf nd ≤ b) : Step b st (declareSymbol nm nd k st) := by
  refine ⟨fun f rest hs => ?_, fun hne hf => ?_⟩
  · refine ⟨[⟨nm, nd, k⟩], ?_, by simpa using hb⟩
    simp [declareSymbol, hs]
  · rw [declareSymbol_found] at hf
    exact Or.inl hf

theorem Step.push_pop (b : Nat) (st st' : FindSt)
    (h : Step b (pushScope st) st') : Step b st (popScope st') := by
  obtain ⟨he, hp⟩ := h
  refine ⟨fun f rest hs => ?_, fun hne hf => ?_⟩
  · obtain ⟨e1, hs1, _⟩ := he [] (f :: rest) (by simp [pushScope, hs])
    refine ⟨[], ?_, by simp⟩
    simp [popScope, hs1]
  · rw [popScope_found] at hf
    have hne' : (pushScope st).scopes ≠ [] := by simp [pushScope]
    rcases hp hne' hf with h | ⟨d, hd1, hd2⟩
    · exact Or.inl h
    · refine Or.inr ⟨d, ?_, ?_⟩
      · rw [popScope_declNode]; exact hd1
      · rcases hd2 with hmem | hsz
        · exact Or.inl (by simpa [pushScope, chainNodes] using hmem)
        · exact Or.inr hsz

end DeclarationFinder

namespace DeclarationFinder

open Quirrel

theorem Step.declareParamsStep (ps : List Node) (st : FindSt) :
    Step (sizeOf ps) st (declareParams ps st) := by
  induction ps generalizing st with
  | nil => exact Step.refl _ st
  | cons p ps ih =>
      rw [declareParams]
      refine Step.comp (sizeOf p) (sizeOf ps) (sizeOf (p :: ps)) st _ _
        (by simp +arith) (by simp +arith) (Step.declare _ _ _ _ _ le_rfl) (ih _) ?_
      intro hf
      exact ⟨declareParams_declNode _ _, by rw [declareParams_found]; exact hf⟩

theorem Step.declareDestructuredStep (ds : List Node) (st : FindSt) :
    Step (sizeOf ds) st (declareDestructured ds st) := by
  induction ds generalizing st with
  | nil => exact Step.refl _ st
  | cons d ds ih =>
      rw [declareDestructured]
      refine Step.comp (sizeOf d) (sizeOf ds) (sizeOf (d :: ds)) st _ _
        (by simp +arith) (by simp +arith) (Step.declare _ _ _ _ _ le_rfl) (ih _) ?_
      intro hf
      exact ⟨declareDestructured_declNode _ _, by rw [declareDestructured_found]; exact hf⟩

theorem Step.declareImportSlotsStep (b : Nat) (imp : Node) (slots : List ImportSlot)
    (st : FindSt) (hb : sizeOf imp ≤ b) :
    Step b st (declareImportSlots imp slots st) := by
  induction slots generalizing st with
  | nil => exact Step.refl _ st
  | cons s ss ih =>
      rw [declareImportSlots]
      split
      · exact ih st
      · refine Step.comp b b b st _ _ le_rfl le_rfl
          (Step.declare _ _ _ _ _ hb) (ih _) ?_
        intro hf
        exact ⟨declareImportSlots_declNode _ _ _, by rw [declareImportSlots_found]; exact hf⟩

/-- Step for a conditional declaration (`if name then declare else skip`). -/
theorem Step.declareIf (b : Nat) (c : Prop) [Decidable c] (nm : String) (nd : Node)
    (k : String) (st : FindSt) (hb : sizeOf nd ≤ b) :
    Step b st (if c then declareSymbol nm nd k st else st) := by
  split
  · exact Step.declare _ _ _ _ _ hb
  · exact Step.refl _ st

theorem declareIf_declNode (c : Prop) [Decidable c] (nm : String) (nd : Node)
    (k : String) (st : FindSt) :
    (if c then declareSymbol nm nd k st else st).declarationNode = st.declarationNode := by
  split
  · exact declareSymbol_declNode _ _ _ _
  · rfl

theorem declareIf_found (c : Prop) [Decidable c] (nm : String) (nd : Node)
    (k : String) (st : FindSt) :
    (if c then declareSymbol nm nd k st else st).found = st.found := by
  split
  · exact declareSymbol_found _ _ _ _
  · rfl

/-- Step for the optional loop-variable declarations of foreach/try. -/
theorem Step.declareOptVar (b : Nat) (o : Option Node) (k : String) (st : FindSt)
    (hb : ∀ i, o = some i → sizeOf i ≤ b) :
    Step b st (match o with
      | some i => declareSymbol i.declName i k st
      | none => st) := by
  cases o with
  | some i => exact Step.declare _ _ _ _ _ (hb i rfl)
  | none => exact Step.refl _ st

theorem declareOptVar_declNode (o : Option Node) (k : String) (st : FindSt) :
    (match o with
      | some i => declareSymbol i.declName i k st
      | none => st).declarationNode = st.declarationNode := by
  cases o with
  | some i => exact declareSymbol_declNode _ _ _ _
  | none => rfl

theorem declareOptVar_found (o : Option Node) (k : String) (st : FindSt) :
    (match o with
      | some i => declareSymbol i.declName i k st
      | none => st).found = st.found := by
  cases o with
  | some i => exact declareSymbol_found _ _ _ _
  | none => rfl

/-- Step for the conditional class-name declaration of the TO_CLASS case. -/
theorem Step.declareClassName (b : Nat) (classKey : Option Node) (nd : Node)
    (st : FindSt) (hb : sizeOf nd ≤ b) :
    Step b st (match getClassName classKey with
      | some name => declareSymbol name nd "class" st
      | none => st) := by
  cases h : getClassName classKey with
  | some name => exact Step.declare _ _ _ _ _ hb
  | none => exact Step.refl _ st

theorem declareClassName_declNode (classKey : Option Node) (nd : Node) (st : FindSt) :
    (match getClassName classKey with
      | some name => declareSymbol name nd "class" st
      | none => st).declarationNode = st.declarationNode := by
  cases getClassName classKey with
  | some name => exact declareSymbol_declNode _ _ _ _
  | none => rfl

theorem declareClassName_found (classKey : Option Node) (nd : Node) (st : FindSt) :
    (match getClassName classKey with
      | some name => declareSymbol name nd "class" st
      | none => st).found = st.found := by
  cases getClassName classKey with
  | some name => exact declareSymbol_found _ _ _ _
  | none => rfl

theorem hdecl_visitNode (tl tc : Int) (n : Node) (st : FindSt) (hf : st.found = true) :
    (visitNode tl tc n st).declarationNode = st.declarationNode ∧
      (visitNode tl tc n st).found = true := by
  rw [visit_found_id tl tc n st hf]; exact ⟨rfl, hf⟩

theorem hdecl_visitOpt (tl tc : Int) (o : Option Node) (st : FindSt) (hf : st.found = true) :
    (visitOpt tl tc o st).declarationNode = st.declarationNode ∧
      (visitOpt tl tc o st).found = true := by
  rw [visitOpt_found_id tl tc o st hf]; exact ⟨rfl, hf⟩

theorem hdecl_visitList (tl tc : Int) (l : List Node) (st : FindSt) (hf : st.found = true) :
    (visitList tl tc l st).declarationNode = st.declarationNode ∧
      (visitList tl tc l st).found = true := by
  rw [visitList_found_id tl tc l st hf]; exact ⟨rfl, hf⟩

theorem hdecl_visitMembers (tl tc : Int) (l : List (Option Node × Option Node × Bool))
    (st : FindSt) (hf : st.found = true) :
    (visitMembers tl tc l st).declarationNode = st.declarationNode ∧
      (visitMembers tl tc l st).found = true := by
  rw [visitMembers_found_id tl tc l st hf]; exact ⟨rfl, hf⟩

theorem hdecl_visitCases (tl tc : Int) (l : List (Option Node × Option Node))
    (st : FindSt) (hf : st.found = true) :
    (visitCases tl tc l st).declarationNode = st.declarationNode ∧
      (visitCases tl tc l st).found = true := by
  rw [visitCases_found_id tl tc l st hf]; exact ⟨rfl, hf⟩

end DeclarationFinder

namespace DeclarationFinder

open Quirrel

set_option maxHeartbeats 2000000 in
/-- The traversal invariant of the declaration finder: visiting a node only
    pushes symbols for nodes of the visited sub-tree onto the innermost
    frame, and any newly found declaration comes from the incoming chain or
    from the visited sub-tree. -/
theorem visitStep (tl tc : Int) : ∀ (n : Node) (st : FindSt),
    Step (sizeOf n) st (visitNode tl tc n st) := by
  apply visitNode.induct tl tc
    (fun n st => Step (sizeOf n) st (visitNode tl tc n st))
    (fun l st => Step (sizeOf l) st (visitCases tl tc l st))
    (fun o st => Step (sizeOf o) st (visitOpt tl tc o st))
    (fun l st => Step (sizeOf l) st (visitMembers tl tc l st))
    (fun l st => Step (sizeOf l) st (visitList tl tc l st))
  case case1 =>
    intro t st hf
    exact Step.of_eq _ _ _ (visit_found_id tl tc t st hf)
  case case2 =>
    intro st hnf stmts span st1 ih
    have hv : visitNode tl tc (.block true stmts span) st = visitList tl tc stmts st := by
      rw [visitNode.eq_def]; simp [hnf]
    rw [hv]
    have ih' : Step (sizeOf stmts) st (visitList tl tc stmts st) := ih
    exact Step.mono _ _ _ _ (by simp +arith) ih'
  case case3 =>
    intro st hnf isRoot stmts span st1 hroot ih
    have hv : visitNode tl tc (.block isRoot stmts span) st =
        popScope (visitList tl tc stmts (pushScope st)) := by
      rw [visitNode.eq_def]; simp [hnf, hroot]
    rw [hv]
    have ih' : Step (sizeOf stmts) (pushScope st) (visitList tl tc stmts (pushScope st)) := by
      have h1 : st1 = pushScope st := by simp [st1, hroot]
      rw [h1] at ih; exact ih
    exact Step.mono _ _ _ _ (by simp +arith) (Step.push_pop _ _ _ ih')
  case case4 =>
    intro st hnf isCtor name params body span st1 st2 st3 ih
    have hv : visitNode tl tc (.funcDecl isCtor name params body span) st =
        popScope (visitOpt tl tc body (declareParams params (pushScope
          (if name ≠ "" then
            declareSymbol name (.funcDecl isCtor name params body span) "function" st
          else st)))) := by
      rw [visitNode.eq_def]; simp [hnf]
    rw [hv]
    refine Step.comp (sizeOf (Node.funcDecl isCtor name params body span)) _ _ st _ _
      le_rfl le_rfl
      (Step.declareIf (sizeOf (Node.funcDecl isCtor name params body span)) (name ≠ "")
        name (Node.funcDecl isCtor name params body span) "function" st le_rfl) ?_ ?_
    · refine Step.push_pop _ _ _ ?_
      refine Step.comp (sizeOf params) (sizeOf body) _ _ _ _
        (by simp +arith) (by simp +arith)
        (Step.declareParamsStep params _) ih ?_
      intro hf
      exact hdecl_visitOpt tl tc body _ hf
    · intro hf
      have hf2 : (declareParams params (pushScope st1)).found = true := by
        rw [declareParams_found, pushScope_found]
        exact hf
      have h4 := hdecl_visitOpt tl tc body (declareParams params (pushScope st1)) hf2
      constructor
      · rw [popScope_declNode, h4.1, declareParams_declNode, pushScope_declNode]
      · rw [popScope_found, h4.2]
  case case5 =>
    intro st hnf classKey classBase members span st1 st2 ihBase ihMembers
    have hv : visitNode tl tc (.classDecl classKey classBase members span) st =
        visitMembers tl tc members (visitOpt tl tc classBase
          (match getClassName classKey with
            | some name =>
                declareSymbol name (.classDecl classKey classBase members span) "class" st
            | none => st)) := by
      rw [visitNode.eq_def]; simp [hnf]
    rw [hv]
    refine Step.comp (sizeOf (Node.classDecl classKey classBase members span))
      (sizeOf members) _ st _ _ le_rfl (by simp +arith) ?_ ihMembers ?_
    · refine Step.comp (sizeOf (Node.classDecl classKey classBase members span))
        (sizeOf classBase) _ st _ _ le_rfl (by simp +arith)
        (Step.declareClassName _ _ _ _ le_rfl) ihBase ?_
      intro hf
      exact hdecl_visitOpt tl tc classBase _ hf
    · intro hf
      exact hdecl_visitMembers tl tc members _ hf
  case case6 =>
    intro st hnf name consts span
    have hv : visitNode tl tc (.enumDecl name consts span) st =
        declareSymbol name (.enumDecl name consts span) "enum" st := by
      rw [visitNode.eq_def]; simp [hnf]
    rw [hv]
    exact Step.declare _ _ _ _ _ le_rfl
  case case7 =>
    intro st hnf name assignable init span ih
    have hv : visitNode tl tc (.varDecl name assignable init span) st =
        declareSymbol name (.varDecl name assignable init span)
          (if assignable then "variable" else "binding") (visitOpt tl tc init st) := by
      rw [visitNode.eq_def]; simp [hnf]
    rw [hv]
    refine Step.comp (sizeOf init) _ _ st _ _ (by simp +arith) le_rfl ih
      (Step.declare _ _ _ _ _ le_rfl) ?_
    intro hf
    exact ⟨declareSymbol_declNode _ _ _ _, by rw [declareSymbol_found]; exact hf⟩
  case case8 =>
    intro st hnf name val span ih
    have hv : visitNode tl tc (.constDecl name val span) st =
        declareSymbol name (.constDecl name val span) "constant"
          (visitOpt tl tc val st) := by
      rw [visitNode.eq_def]; simp [hnf]
    rw [hv]
    refine Step.comp (sizeOf val) _ _ st _ _ (by simp +arith) le_rfl ih
      (Step.declare _ _ _ _ _ le_rfl) ?_
    intro hf
    exact ⟨declareSymbol_declNode _ _ _ _, by rw [declareSymbol_found]; exact hf⟩
  case case9 =>
    intro st hnf decls span ih
    have hv : visitNode tl tc (.declGroup decls span) st = visitList tl tc decls st := by
      rw [visitNode.eq_def]; simp [hnf]
    rw [hv]
    exact Step.mono _ _ _ _ (by simp +arith) ih
  case case10 =>
    intro st hnf initExpr decls span ih
    have hv : visitNode tl tc (.destructure initExpr decls span) st =
        declareDestructured decls (visitOpt tl tc initExpr st) := by
      rw [visitNode.eq_def]; simp [hnf]
    rw [hv]
    refine Step.comp (sizeOf initExpr) (sizeOf decls) _ st _ _
      (by simp +arith) (by simp +arith) ih (Step.declareDestructuredStep decls _) ?_
    intro hf
    exact ⟨declareDestructured_declNode _ _, by rw [declareDestructured_found]; exact hf⟩
  case case11 =>
    intro st hnf slots span hempty name
    have hv : visitNode tl tc (.importStmt (some name) slots span) st =
        declareSymbol name (.importStmt (some name) slots span) "import" st := by
      rw [visitNode.eq_def]; simp [hnf, hempty]
    rw [hv]
    exact Step.declare _ _ _ _ _ le_rfl
  case case12 =>
    intro st hnf slots span hempty
    have hv : visitNode tl tc (.importStmt none slots span) st = st := by
      rw [visitNode.eq_def]; simp [hnf, hempty]
    rw [hv]
    exact Step.refl _ st
  case case13 =>
    intro st hnf moduleAlias slots span hne
    have hv : visitNode tl tc (.importStmt moduleAlias slots span) st =
        declareImportSlots (.importStmt moduleAlias slots span) slots st := by
      rw [visitNode.eq_def]; simp [hnf, hne]
    rw [hv]
    exact Step.declareImportSlotsStep _ _ _ _ le_rfl
  case case14 =>
    intro st hnf idx val container body span st1 st2 st3 st4 ihContainer ihBody
    cases idx with
    | none =>
      cases val with
      | none =>
        have hv : visitNode tl tc (.foreachStmt none none container body span) st =
            popScope (visitOpt tl tc body (pushScope (visitOpt tl tc container st))) := by
          rw [visitNode.eq_def]; simp [hnf]
        rw [hv]
        refine Step.comp (sizeOf container)
          (sizeOf (Node.foreachStmt none none container body span)) _ st _ _
          (by simp +arith) le_rfl ihContainer
          (Step.push_pop _ _ _ (Step.mono _ _ _ _ (by simp +arith) ihBody)) ?_
        intro hf
        have hf3 : (pushScope (visitOpt tl tc container st)).found = true := by
          rw [pushScope_found]; exact hf
        have h4 := hdecl_visitOpt tl tc body _ hf3
        exact ⟨by rw [popScope_declNode, h4.1, pushScope_declNode],
          by rw [popScope_found, h4.2]⟩
      | some v =>
        have hv : visitNode tl tc (.foreachStmt none (some v) container body span) st =
            popScope (visitOpt tl tc body (declareSymbol v.declName v "variable"
              (pushScope (visitOpt tl tc container st)))) := by
          rw [visitNode.eq_def]; simp [hnf]
        rw [hv]
        refine Step.comp (sizeOf container)
          (sizeOf (Node.foreachStmt none (some v) container body span)) _ st _ _
          (by simp +arith) le_rfl ihContainer ?_ ?_
        · refine Step.push_pop _ _ _ ?_
          refine Step.comp (sizeOf v)
            (sizeOf body) _ _ _ _ (by simp +arith) (by simp +arith)
            (Step.declare _ _ _ _ _ le_rfl) ihBody
            (fun hf => hdecl_visitOpt tl tc body _ hf)
        · intro hf
          have hf3 : (declareSymbol v.declName v "variable"
              (pushScope (visitOpt tl tc container st))).found = true := by
            rw [declareSymbol_found, pushScope_found]; exact hf
          have h4 := hdecl_visitOpt tl tc body _ hf3
          exact ⟨by rw [popScope_declNode, h4.1, declareSymbol_declNode, pushScope_declNode],
            by rw [popScope_found, h4.2]⟩
    | some i =>
      cases val with
      | none =>
        have hv : visitNode tl tc (.foreachStmt (some i) none container body span) st =
            popScope (visitOpt tl tc body (declareSymbol i.declName i "variable"
              (pushScope (visitOpt tl tc container st)))) := by
          rw [visitNode.eq_def]; simp [hnf]
        rw [hv]
        refine Step.comp (sizeOf container)
          (sizeOf (Node.foreachStmt (some i) none container body span)) _ st _ _
          (by simp +arith) le_rfl ihContainer ?_ ?_
        · refine Step.push_pop _ _ _ ?_
          refine Step.comp (sizeOf i)
            (sizeOf body) _ _ _ _ (by simp +arith) (by simp +arith)
            (Step.declare _ _ _ _ _ le_rfl) ihBody
            (fun hf => hdecl_visitOpt tl tc body _ hf)
        · intro hf
          have hf3 : (declareSymbol i.declName i "variable"
              (pushScope (visitOpt tl tc container st))).found = true := by
            rw [declareSymbol_found, pushScope_found]; exact hf
          have h4 := hdecl_visitOpt tl tc body _ hf3
          exact ⟨by rw [popScope_declNode, h4.1, declareSymbol_declNode, pushScope_declNode],
            by rw [popScope_found, h4.2]⟩
      | some v =>
        have hv : visitNode tl tc (.foreachStmt (some i) (some v) container body span) st =
            popScope (visitOpt tl tc body (declareSymbol v.declName v "variable"
              (declareSymbol i.declName i "variable"
                (pushScope (visitOpt tl tc container st))))) := by
          rw [visitNode.eq_def]; simp [hnf]
        rw [hv]
        refine Step.comp (sizeOf container)
          (sizeOf (Node.foreachStmt (some i) (some v) container body span)) _ st _ _
          (by simp +arith) le_rfl ihContainer ?_ ?_
        · refine Step.push_pop _ _ _ ?_
          refine Step.comp (sizeOf (Node.foreachStmt (some i) (some v) container body span))
            (sizeOf body) _ _ _ _ le_rfl (by simp +arith) ?_ ihBody
            (fun hf => hdecl_visitOpt tl tc body _ hf)
          refine Step.comp (sizeOf i) (sizeOf v) _ _ _ _
            (by simp +arith) (by simp +arith)
            (Step.declare _ _ _ _ _ le_rfl) (Step.declare _ _ _ _ _ le_rfl) ?_
          intro hf
          exact ⟨declareSymbol_declNode _ _ _ _, by rw [declareSymbol_found]; exact hf⟩
        · intro hf
          have hf3 : (declareSymbol v.declName v "variable"
              (declareSymbol i.declName i "variable"
                (pushScope (visitOpt tl tc container st)))).found = true := by
            rw [declareSymbol_found, declareSymbol_found, pushScope_found]; exact hf
          have h4 := hdecl_visitOpt tl tc body _ hf3
          exact ⟨by rw [popScope_declNode, h4.1, declareSymbol_declNode,
              declareSymbol_declNode, pushScope_declNode],
            by rw [popScope_found, h4.2]⟩
  case case15 =>
    intro st hnf init cond modifier body span st1 st2 st3 st4 ihInit ihCond ihMod ihBody
    have hv : visitNode tl tc (.forStmt init cond modifier body span) st =
        popScope (visitOpt tl tc body (visitOpt tl tc modifier
          (visitOpt tl tc cond (visitOpt tl tc init (pushScope st))))) := by
      rw [visitNode.eq_def]; simp [hnf]
    rw [hv]
    refine Step.mono _ _ _ _ (le_refl (sizeOf (Node.forStmt init cond modifier body span)))
      (Step.push_pop _ _ _ ?_)
    refine Step.comp (sizeOf (Node.forStmt init cond modifier body span)) (sizeOf body)
      _ _ _ _ le_rfl (by simp +arith) ?_ ihBody
      (fun hf => hdecl_visitOpt tl tc body _ hf)
    refine Step.comp (sizeOf (Node.forStmt init cond modifier body span)) (sizeOf modifier)
      _ _ _ _ le_rfl (by simp +arith) ?_ ihMod
      (fun hf => hdecl_visitOpt tl tc modifier _ hf)
    refine Step.comp (sizeOf init) (sizeOf cond) _ _ _ _
      (by simp +arith) (by simp +arith) ihInit ihCond
      (fun hf => hdecl_visitOpt tl tc cond _ hf)
  case case16 =>
    intro st hnf cond body span ihCond ihBody
    have hv : visitNode tl tc (.whileStmt cond body span) st =
        visitOpt tl tc body (visitOpt tl tc cond st) := by
      rw [visitNode.eq_def]; simp [hnf]
    rw [hv]
    refine Step.comp (sizeOf cond) (sizeOf body) _ _ _ _
      (by simp +arith) (by simp +arith) ihCond ihBody
      (fun hf => hdecl_visitOpt tl tc body _ hf)
  case case17 =>
    intro st hnf body cond span ihBody ihCond
    have hv : visitNode tl tc (.doWhileStmt body cond span) st =
        visitOpt tl tc cond (visitOpt tl tc body st) := by
      rw [visitNode.eq_def]; simp [hnf]
    rw [hv]
    refine Step.comp (sizeOf body) (sizeOf cond) _ _ _ _
      (by simp +arith) (by simp +arith) ihBody ihCond
      (fun hf => hdecl_visitOpt tl tc cond _ hf)
  case case18 =>
    intro st hnf tryBody exceptionId catchBody span st1 st2 st3 ihTry ihCatch
    cases exceptionId with
    | none =>
      have hv : visitNode tl tc (.tryStmt tryBody none catchBody span) st =
          popScope (visitOpt tl tc catchBody
            (pushScope (visitOpt tl tc tryBody st))) := by
        rw [visitNode.eq_def]; simp [hnf]
      rw [hv]
      refine Step.comp (sizeOf tryBody)
        (sizeOf (Node.tryStmt tryBody none catchBody span)) _ st _ _
        (by simp +arith) le_rfl ihTry
        (Step.push_pop _ _ _ (Step.mono _ _ _ _ (by simp +arith) ihCatch)) ?_
      intro hf
      have hf3 : (pushScope (visitOpt tl tc tryBody st)).found = true := by
        rw [pushScope_found]; exact hf
      have h4 := hdecl_visitOpt tl tc catchBody _ hf3
      exact ⟨by rw [popScope_declNode, h4.1, pushScope_declNode],
        by rw [popScope_found, h4.2]⟩
    | some e =>
      have hv : visitNode tl tc (.tryStmt tryBody (some e) catchBody span) st =
          popScope (visitOpt tl tc catchBody (declareSymbol e.declName e "exception"
            (pushScope (visitOpt tl tc tryBody st)))) := by
        rw [visitNode.eq_def]; simp [hnf]
      rw [hv]
      refine Step.comp (sizeOf tryBody)
        (sizeOf (Node.tryStmt tryBody (some e) catchBody span)) _ st _ _
        (by simp +arith) le_rfl ihTry ?_ ?_
      · refine Step.push_pop _ _ _ ?_
        refine Step.comp (sizeOf e) (sizeOf catchBody) _ _ _ _
          (by simp +arith) (by simp +arith)
          (Step.declare _ _ _ _ _ le_rfl) ihCatch
          (fun hf => hdecl_visitOpt tl tc catchBody _ hf)
      · intro hf
        have hf3 : (declareSymbol e.declName e "exception"
            (pushScope (visitOpt tl tc tryBody st))).found = true := by
          rw [declareSymbol_found, pushScope_found]; exact hf
        have h4 := hdecl_visitOpt tl tc catchBody _ hf3
        exact ⟨by rw [popScope_declNode, h4.1, declareSymbol_declNode, pushScope_declNode],
          by rw [popScope_found, h4.2]⟩
  case case19 =>
    intro st hnf cond thenBranch elseBranch span ihCond ihThen ihElse
    have hv : visitNode tl tc (.ifStmt cond thenBranch elseBranch span) st =
        visitOpt tl tc elseBranch (visitOpt tl tc thenBranch (visitOpt tl tc cond st)) := by
      rw [visitNode.eq_def]; simp [hnf]
    rw [hv]
    refine Step.comp (sizeOf (Node.ifStmt cond thenBranch elseBranch span))
      (sizeOf elseBranch) _ _ _ _ le_rfl (by simp +arith) ?_ ihElse
      (fun hf => hdecl_visitOpt tl tc elseBranch _ hf)
    refine Step.comp (sizeOf cond) (sizeOf thenBranch) _ _ _ _
      (by simp +arith) (by simp +arith) ihCond ihThen
      (fun hf => hdecl_visitOpt tl tc thenBranch _ hf)
  case case20 =>
    intro st hnf expr cases defaultCase span st1 st2 ihExpr ihCases ihDefault
    have hv : visitNode tl tc (.switchStmt expr cases defaultCase span) st =
        visitOpt tl tc defaultCase (visitCases tl tc cases (visitOpt tl tc expr st)) := by
      rw [visitNode.eq_def]; simp [hnf]
    rw [hv]
    refine Step.comp (sizeOf (Node.switchStmt expr cases defaultCase span))
      (sizeOf defaultCase) _ _ _ _ le_rfl (by simp +arith) ?_ ihDefault
      (fun hf => hdecl_visitOpt tl tc defaultCase _ hf)
    refine Step.comp (sizeOf expr) (sizeOf cases) _ _ _ _
      (by simp +arith) (by simp +arith) ihExpr ihCases
      (fun hf => hdecl_visitCases tl tc cases _ hf)
  case case21 =>
    intro st hnf arg span ih
    have hv : visitNode tl tc (.terminate arg span) st = visitOpt tl tc arg st := by
      rw [visitNode.eq_def]; simp [hnf]
    rw [hv]
    exact Step.mono _ _ _ _ (by simp +arith) ih
  case case22 =>
    intro st hnf expr span ih
    have hv : visitNode tl tc (.exprStmt expr span) st = visitOpt tl tc expr st := by
      rw [visitNode.eq_def]; simp [hnf]
    rw [hv]
    exact Step.mono _ _ _ _ (by simp +arith) ih
  case case23 =>
    intro st hnf name sp hcont s hsym
    have hv : visitNode tl tc (.id name sp) st = recordFound s st := by
      rw [visitNode.eq_def]; simp [hnf, hcont, hsym]
    rw [hv]
    constructor
    · intro f rest hs
      exact ⟨[], by simp [recordFound, hs], by simp⟩
    · intro hne hf
      right
      exact ⟨s.node, by simp [recordFound], Or.inl (findSymbol_mem _ _ _ hsym)⟩
  case case24 =>
    intro st hnf name sp hcont hsym
    have hv : visitNode tl tc (.id name sp) st = st := by
      rw [visitNode.eq_def]; simp [hnf, hcont, hsym]
    rw [hv]
    exact Step.refl _ st
  case case25 =>
    intro st hnf name sp hcont
    have hv : visitNode tl tc (.id name sp) st = st := by
      rw [visitNode.eq_def]; simp [hnf, hcont]
    rw [hv]
    exact Step.refl _ st
  case case26 =>
    intro st hnf decl span ih
    have hv : visitNode tl tc (.declExpr decl span) st = visitOpt tl tc decl st := by
      rw [visitNode.eq_def]; simp [hnf]
    rw [hv]
    exact Step.mono _ _ _ _ (by simp +arith) ih
  case case27 =>
    intro st hnf callee args span st1 ihCallee ihArgs
    have hv : visitNode tl tc (.call callee args span) st =
        visitList tl tc args (visitOpt tl tc callee st) := by
      rw [visitNode.eq_def]; simp [hnf]
    rw [hv]
    refine Step.comp (sizeOf callee) (sizeOf args) _ _ _ _
      (by simp +arith) (by simp +arith) ihCallee ihArgs
      (fun hf => hdecl_visitList tl tc args _ hf)
  case case28 =>
    intro st hnf receiver fieldName span ih
    have hv : visitNode tl tc (.getField receiver fieldName span) st =
        visitOpt tl tc receiver st := by
      rw [visitNode.eq_def]; simp [hnf]
    rw [hv]
    exact Step.mono _ _ _ _ (by simp +arith) ih
  case case29 =>
    intro st hnf receiver val span ihRecv ihVal
    have hv : visitNode tl tc (.setField receiver val span) st =
        visitOpt tl tc val (visitOpt tl tc receiver st) := by
      rw [visitNode.eq_def]; simp [hnf]
    rw [hv]
    refine Step.comp (sizeOf receiver) (sizeOf val) _ _ _ _
      (by simp +arith) (by simp +arith) ihRecv ihVal
      (fun hf => hdecl_visitOpt tl tc val _ hf)
  case case30 =>
    intro st hnf receiver key span ihRecv ihKey
    have hv : visitNode tl tc (.getSlot receiver key span) st =
        visitOpt tl tc key (visitOpt tl tc receiver st) := by
      rw [visitNode.eq_def]; simp [hnf]
    rw [hv]
    refine Step.comp (sizeOf receiver) (sizeOf key) _ _ _ _
      (by simp +arith) (by simp +arith) ihRecv ihKey
      (fun hf => hdecl_visitOpt tl tc key _ hf)
  case case31 =>
    intro st hnf receiver key val span ihRecv ihKey ihVal
    have hv : visitNode tl tc (.setSlot receiver key val span) st =
        visitOpt tl tc val (visitOpt tl tc key (visitOpt tl tc receiver st)) := by
      rw [visitNode.eq_def]; simp [hnf]
    rw [hv]
    refine Step.comp (sizeOf (Node.setSlot receiver key val span)) (sizeOf val)
      _ _ _ _ le_rfl (by simp +arith) ?_ ihVal
      (fun hf => hdecl_visitOpt tl tc val _ hf)
    refine Step.comp (sizeOf receiver) (sizeOf key) _ _ _ _
      (by simp +arith) (by simp +arith) ihRecv ihKey
      (fun hf => hdecl_visitOpt tl tc key _ hf)
  case case32 =>
    intro st hnf a b c span ihA ihB ihC
    have hv : visitNode tl tc (.ternary a b c span) st =
        visitOpt tl tc c (visitOpt tl tc b (visitOpt tl tc a st)) := by
      rw [visitNode.eq_def]; simp [hnf]
    rw [hv]
    refine Step.comp (sizeOf (Node.ternary a b c span)) (sizeOf c)
      _ _ _ _ le_rfl (by simp +arith) ?_ ihC
      (fun hf => hdecl_visitOpt tl tc c _ hf)
    refine Step.comp (sizeOf a) (sizeOf b) _ _ _ _
      (by simp +arith) (by simp +arith) ihA ihB
      (fun hf => hdecl_visitOpt tl tc b _ hf)
  case case33 =>
    intro st hnf inits span ih
    have hv : visitNode tl tc (.arrayExpr inits span) st = visitList tl tc inits st := by
      rw [visitNode.eq_def]; simp [hnf]
    rw [hv]
    exact Step.mono _ _ _ _ (by simp +arith) ih
  case case34 =>
    intro st hnf exprs span ih
    have hv : visitNode tl tc (.comma exprs span) st = visitList tl tc exprs st := by
      rw [visitNode.eq_def]; simp [hnf]
    rw [hv]
    exact Step.mono _ _ _ _ (by simp +arith) ih
  case case35 =>
    intro st hnf members span ih
    have hv : visitNode tl tc (.tableDecl members span) st =
        visitMembers tl tc members st := by
      rw [visitNode.eq_def]; simp [hnf]
    rw [hv]
    exact Step.mono _ _ _ _ (by simp +arith) ih
  case case36 =>
    intro st hnf blk span ih
    have hv : visitNode tl tc (.codeBlockExpr blk span) st = visitOpt tl tc blk st := by
      rw [visitNode.eq_def]; simp [hnf]
    rw [hv]
    exact Step.mono _ _ _ _ (by simp +arith) ih
  case case37 =>
    intro st hnf lhs rhs span ihL ihR
    have hv : visitNode tl tc (.binExpr lhs rhs span) st =
        visitOpt tl tc rhs (visitOpt tl tc lhs st) := by
      rw [visitNode.eq_def]; simp [hnf]
    rw [hv]
    refine Step.comp (sizeOf lhs) (sizeOf rhs) _ _ _ _
      (by simp +arith) (by simp +arith) ihL ihR
      (fun hf => hdecl_visitOpt tl tc rhs _ hf)
  case case38 =>
    intro st hnf arg span ih
    have hv : visitNode tl tc (.unExpr arg span) st = visitOpt tl tc arg st := by
      rw [visitNode.eq_def]; simp [hnf]
    rw [hv]
    exact Step.mono _ _ _ _ (by simp +arith) ih
  case case39 =>
    intro st hnf arg span ih
    have hv : visitNode tl tc (.incExpr arg span) st = visitOpt tl tc arg st := by
      rw [visitNode.eq_def]; simp [hnf]
    rw [hv]
    exact Step.mono _ _ _ _ (by simp +arith) ih
  case case40 =>
    intro st hnf name span
    have hv : visitNode tl tc (.paramDecl name span) st = st := by
      rw [visitNode.eq_def]; simp [hnf]
    rw [hv]
    exact Step.refl _ st
  case case41 =>
    intro st hnf isString s span
    have hv : visitNode tl tc (.literal isString s span) st = st := by
      rw [visitNode.eq_def]; simp [hnf]
    rw [hv]
    exact Step.refl _ st
  case case42 =>
    intro st hnf span
    have hv : visitNode tl tc (.otherLeaf span) st = st := by
      rw [visitNode.eq_def]; simp [hnf]
    rw [hv]
    exact Step.refl _ st
  case case43 =>
    intro st
    exact Step.of_eq _ _ _ (by rw [visitList])
  case case44 =>
    intro st p ps hf
    exact Step.of_eq _ _ _ (visitList_found_id tl tc (p :: ps) st hf)
  case case45 =>
    intro st p ps hnf ihHead ihTail
    have hv : visitList tl tc (p :: ps) st =
        visitList tl tc ps (visitNode tl tc p st) := by
      rw [visitList]; simp [hnf]
    rw [hv]
    refine Step.comp (sizeOf p) (sizeOf ps) _ _ _ _
      (by simp +arith) (by simp +arith) ihHead ihTail
      (fun hf => hdecl_visitList tl tc ps _ hf)
  case case46 =>
    intro st v ih
    have hv : visitOpt tl tc (some v) st = visitNode tl tc v st := by rw [visitOpt]
    rw [hv]
    exact Step.mono _ _ _ _ (by simp +arith) ih
  case case47 =>
    intro st
    exact Step.of_eq _ _ _ (by rw [visitOpt])
  case case48 =>
    intro st
    exact Step.of_eq _ _ _ (by rw [visitMembers])
  case case49 =>
    intro st fst v snd ns hf
    exact Step.of_eq _ _ _ (visitMembers_found_id tl tc ((fst, v, snd) :: ns) st hf)
  case case50 =>
    intro st fst v snd ns hnf ihV ihNs
    have hv : visitMembers tl tc ((fst, v, snd) :: ns) st =
        visitMembers tl tc ns (visitOpt tl tc v st) := by
      rw [visitMembers]; simp [hnf]
    rw [hv]
    refine Step.comp (sizeOf v) (sizeOf ns) _ _ _ _
      (by simp +arith) (by simp +arith) ihV ihNs
      (fun hf => hdecl_visitMembers tl tc ns _ hf)
  case case51 =>
    intro st
    exact Step.of_eq _ _ _ (by rw [visitCases])
  case case52 =>
    intro st v s ns hf
    exact Step.of_eq _ _ _ (visitCases_found_id tl tc ((v, s) :: ns) st hf)
  case case53 =>
    intro st v s ns hnf ihV ihS ihNs
    have hv : visitCases tl tc ((v, s) :: ns) st =
        visitCases tl tc ns (visitOpt tl tc s (visitOpt tl tc v st)) := by
      rw [visitCases]; simp [hnf]
    rw [hv]
    refine Step.comp (sizeOf ((v, s) :: ns)) (sizeOf ns) _ _ _ _
      le_rfl (by simp +arith) ?_ ihNs
      (fun hf => hdecl_visitCases tl tc ns _ hf)
    refine Step.comp (sizeOf v) (sizeOf s) _ _ _ _
      (by simp +arith) (by simp +arith) ihV ihS
      (fun hf => hdecl_visitOpt tl tc s _ hf)

end DeclarationFinder

namespace Proofs

open Quirrel DeclarationFinder

/-- C1: for every variable declaration with an initializer, the declaration
    resolver visits the initializer before declaring the variable's name
    into the current scope (first conjunct: the visit decomposes as
    initializer visit, then declare), so an identifier inside the
    initializer resolves to an outer or earlier declaration or to nothing —
    never to the declaration being initialized (second conjunct, for a
    declaration node that is not already in the scope chain). -/
theorem c1_initializer_before_declaration
    (tl tc : Int) (name : String) (assignable : Bool) (i : Node) (sp : Span)
    (st : FindSt)
    (hf : st.found = false)
    (hs : st.scopes ≠ [])
    (hfresh : Node.varDecl name assignable (some i) sp ∉ chainNodes st.scopes) :
    visitNode tl tc (Node.varDecl name assignable (some i) sp) st =
      declareSymbol name (Node.varDecl name assignable (some i) sp)
        (if assignable then "variable" else "binding") (visitNode tl tc i st)
    ∧ ((visitNode tl tc (Node.varDecl name assignable (some i) sp) st).found = true →
        (visitNode tl tc (Node.varDecl name assignable (some i) sp) st).declarationNode ≠
          some (Node.varDecl name assignable (some i) sp)) := by
  have hnf : ¬ st.found = true := by simp [hf]
  have hv : visitNode tl tc (Node.varDecl name assignable (some i) sp) st =
      declareSymbol name (Node.varDecl name assignable (some i) sp)
        (if assignable then "variable" else "binding") (visitNode tl tc i st) := by
    rw [visitNode.eq_def]
    simp [hnf, visitOpt]
  refine ⟨hv, ?_⟩
  intro hfound hcontra
  have hfound' : (visitNode tl tc i st).found = true := by
    rw [hv, declareSymbol_found] at hfound
    exact hfound
  have hprov := (visitStep tl tc i st).2 hs hfound'
  rcases hprov with h | ⟨d, hd1, hd2⟩
  · rw [hf] at h
    exact absurd h (by simp)
  · rw [hv, declareSymbol_declNode, hd1] at hcontra
    have hdv : d = Node.varDecl name assignable (some i) sp := by
      injection hcontra
    subst hdv
    rcases hd2 with hmem | hsz
    · exact hfresh hmem
    · simp at hsz
      omega

/-- C1 witness, on the tree of `local x = 1; local x = x + 1;` with the
    target at the identifier in the second initializer: the hypotheses hold
    at the state reached after the first declaration, the theorem applies,
    and end to end the query resolves to the FIRST declaration of x (source
    range line 1, columns 6-11). -/
theorem c1_initializer_before_declaration_witness :
    ((visitNode 1 23 Demo.var1 initSt).found = false
      ∧ (visitNode 1 23 Demo.var1 initSt).scopes ≠ []
      ∧ Demo.var2 ∉ chainNodes (visitNode 1 23 Demo.var1 initSt).scopes)
    ∧ ((visitNode 1 23 Demo.var2 (visitNode 1 23 Demo.var1 initSt)).found = true →
        (visitNode 1 23 Demo.var2 (visitNode 1 23 Demo.var1 initSt)).declarationNode ≠
          some Demo.var2)
    ∧ findDeclarationAt (some Demo.redeclRoot) 1 23 =
        "\x7b\"found\":true,\"location\":\x7b\"line\":1,\"col\":6,\"endLine\":1,\"endCol\":11,\"kind\":\"variable\"\x7d\x7d" := by
  have h1 : (visitNode 1 23 Demo.var1 initSt).found = false := rfl
  have h2 : (visitNode 1 23 Demo.var1 initSt).scopes ≠ [] := by
    intro h
    exact List.noConfusion h
  have h3 : Demo.var2 ∉ chainNodes (visitNode 1 23 Demo.var1 initSt).scopes := by
    show Demo.var2 ∉ [Demo.var1]
    simp [Demo.var2, Demo.var1, Demo.init2, Demo.lit1]
  exact ⟨⟨h1, h2, h3⟩,
    (c1_initializer_before_declaration 1 23 "x" true Demo.init2 ⟨1, 19, 1, 28⟩
      (visitNode 1 23 Demo.var1 initSt) h1 h2 h3).2,
    rfl⟩

/-- C2: for every for-each loop, the container is visited in the enclosing
    scope before the loop scope opens, the index and value variables are
    declared into a fresh scope in which the body is visited (they resolve
    there), the scope is popped afterwards, and the chain after the loop is
    exactly the chain after the container visit — so loop variables whose
    nodes are not in that chain are not resolvable after the loop. -/
theorem c2_foreach_scoping
    (tl tc : Int) (idxN valN c b : Node) (sp : Span) (st : FindSt)
    (hf : st.found = false) (hs : st.scopes ≠ []) :
    visitNode tl tc (Node.foreachStmt (some idxN) (some valN) (some c) (some b) sp) st =
      popScope (visitNode tl tc b
        (declareSymbol valN.declName valN "variable"
          (declareSymbol idxN.declName idxN "variable"
            (pushScope (visitNode tl tc c st)))))
    ∧ (declareSymbol valN.declName valN "variable"
        (declareSymbol idxN.declName idxN "variable"
          (pushScope (visitNode tl tc c st)))).scopes =
        [⟨valN.declName, valN, "variable"⟩, ⟨idxN.declName, idxN, "variable"⟩] ::
          (visitNode tl tc c st).scopes
    ∧ (idxN.declName ≠ valN.declName →
        findSymbol idxN.declName
          (declareSymbol valN.declName valN "variable"
            (declareSymbol idxN.declName idxN "variable"
              (pushScope (visitNode tl tc c st)))).scopes =
          some ⟨idxN.declName, idxN, "variable"⟩)
    ∧ findSymbol valN.declName
        (declareSymbol valN.declName valN "variable"
          (declareSymbol idxN.declName idxN "variable"
            (pushScope (visitNode tl tc c st)))).scopes =
        some ⟨valN.declName, valN, "variable"⟩
    ∧ (visitNode tl tc
        (Node.foreachStmt (some idxN) (some valN) (some c) (some b) sp) st).scopes =
        (visitNode tl tc c st).scopes
    ∧ (idxN ∉ chainNodes (visitNode tl tc c st).scopes →
        ∀ nm sym, findSymbol nm (visitNode tl tc
            (Node.foreachStmt (some idxN) (some valN) (some c) (some b) sp) st).scopes =
          some sym → sym.node ≠ idxN)
    ∧ (valN ∉ chainNodes (visitNode tl tc c st).scopes →
        ∀ nm sym, findSymbol nm (visitNode tl tc
            (Node.foreachStmt (some idxN) (some valN) (some c) (some b) sp) st).scopes =
          some sym → sym.node ≠ valN) := by
  have hnf : ¬ st.found = true := by simp [hf]
  have hv : visitNode tl tc (Node.foreachStmt (some idxN) (some valN) (some c) (some b) sp) st =
      popScope (visitNode tl tc b
        (declareSymbol valN.declName valN "variable"
          (declareSymbol idxN.declName idxN "variable"
            (pushScope (visitNode tl tc c st))))) := by
    rw [visitNode.eq_def]
    simp [hnf, visitOpt]
  obtain ⟨fc, restc, hsc⟩ : ∃ fc restc, (visitNode tl tc c st).scopes = fc :: restc := by
    obtain ⟨f, rest, hsr⟩ := List.exists_cons_of_ne_nil hs
    obtain ⟨e, he1, _⟩ := (visitStep tl tc c st).1 f rest hsr
    exact ⟨e ++ f, rest, he1⟩
  have hbody : (declareSymbol valN.declName valN "variable"
      (declareSymbol idxN.declName idxN "variable"
        (pushScope (visitNode tl tc c st)))).scopes =
      [⟨valN.declName, valN, "variable"⟩, ⟨idxN.declName, idxN, "variable"⟩] ::
        (visitNode tl tc c st).scopes := by
    simp [declareSymbol, pushScope]
  have hfinal : (visitNode tl tc
      (Node.foreachStmt (some idxN) (some valN) (some c) (some b) sp) st).scopes =
      (visitNode tl tc c st).scopes := by
    rw [hv]
    obtain ⟨eb, hb1, _⟩ := (visitStep tl tc b _).1
      [⟨valN.declName, valN, "variable"⟩, ⟨idxN.declName, idxN, "variable"⟩]
      ((visitNode tl tc c st).scopes) hbody
    show (popScope (visitNode tl tc b _)).scopes = _
    rw [popScope.eq_def]
    rw [hb1, hsc]
  refine ⟨hv, hbody, ?_, ?_, hfinal, ?_, ?_⟩
  · intro hne
    rw [hbody, findSymbol]
    have hbe : (valN.declName == idxN.declName) = false := beq_eq_false_iff_ne.2 (Ne.symm hne)
    simp [List.find?, hbe]
  · rw [hbody, findSymbol]
    simp [List.find?]
  · intro hmem nm sym hsym
    rw [hfinal] at hsym
    intro heq
    exact hmem (heq ▸ findSymbol_mem nm _ sym hsym)
  · intro hmem nm sym hsym
    rw [hfinal] at hsym
    intro heq
    exact hmem (heq ▸ findSymbol_mem nm _ sym hsym)

/-- C2 witness, on the tree of `foreach (i, v in items) { }` with a target
    position outside the tree: both loop variables resolve in the body
    scope, and after the loop the chain is back to the root chain, where
    neither resolves. -/
theorem c2_foreach_scoping_witness :
    (initSt.found = false ∧ initSt.scopes ≠ [])
    ∧ (Demo.idxVar.declName ≠ Demo.valVar.declName →
        findSymbol Demo.idxVar.declName
          (declareSymbol Demo.valVar.declName Demo.valVar "variable"
            (declareSymbol Demo.idxVar.declName Demo.idxVar "variable"
              (pushScope (visitNode 99 0 Demo.items initSt)))).scopes =
          some ⟨Demo.idxVar.declName, Demo.idxVar, "variable"⟩)
    ∧ (visitNode 99 0 Demo.foreachLoop initSt).scopes =
        (visitNode 99 0 Demo.items initSt).scopes
    ∧ (visitNode 99 0 Demo.foreachLoop initSt).scopes = [[]] := by
  have h1 : initSt.found = false := rfl
  have h2 : initSt.scopes ≠ [] := by
    intro h
    exact List.noConfusion h
  have h := c2_foreach_scoping 99 0 Demo.idxVar Demo.valVar Demo.items Demo.loopBody
    ⟨1, 0, 1, 26⟩ initSt h1 h2
  exact ⟨⟨h1, h2⟩, h.2.2.1, h.2.2.2.2.1, rfl⟩

end Proofs

namespace SemanticTokens

open Quirrel

theorem searchLoop_some (window nm : List Char) :
    ∀ (fuel i j : Nat), searchLoop window nm fuel i = some j →
      i ≤ j ∧ wholeWordAt window nm j = true := by
  intro fuel
  induction fuel with
  | zero => intro i j h; simp [searchLoop] at h
  | succ fuel ih =>
      intro i j h
      rw [searchLoop] at h
      split at h
      · split at h
        · cases h
          exact ⟨le_rfl, by assumption⟩
        · have := ih (i + 1) j h
          exact ⟨by omega, this.2⟩
      · exact absurd h (by simp)

end SemanticTokens

namespace Proofs

open Quirrel SemanticTokens

/-- C6 (counterexample): the classifier's name search does not reject every
    match that is a substring of a larger identifier.  On the line
    `xab = 1`, searching for `ab` from column 1 reports a match at column 1,
    although the character to its left on the line, `x`, is an identifier
    character: the match is a substring of the identifier `xab` and the
    left-hand boundary is not checked for a match that starts exactly at the
    search start column. -/
theorem c6_counterexample :
    findNameInLine Demo.xabSource 1 1 "ab" = some 1 ∧
    ¬ claimedWholeWord Demo.xabSource 1 "ab" 1 := by
  exact ⟨rfl, by decide⟩

/-- C6 (amended): the classifier locates a declaration's name by a
    whole-word search over the declaration's start line from the recorded
    column (the search window `lineWindow`); a reported match at column c
    lies at or after the start column, the name occurs there, the right
    boundary is the window edge or a non-identifier character, and the left
    boundary is likewise checked EXCEPT when the match starts exactly at the
    search start column; when no match exists no token is emitted for the
    declaration and the traversal continues. -/
theorem c6_whole_word_search (source : List Char) (line startCol : Int) (nm : String) :
    (∀ c, findNameInLine source line startCol nm = some c →
      startCol ≤ c ∧
      ((lineWindow source line startCol).drop (c - startCol).toNat).take nm.length
        = nm.data ∧
      ((lineWindow source line startCol).length ≤ (c - startCol).toNat + nm.length ∨
        isIdentChar ((lineWindow source line startCol).getD
          ((c - startCol).toNat + nm.length) ' ') = false) ∧
      (c = startCol ∨
        isIdentChar ((lineWindow source line startCol).getD
          ((c - startCol).toNat - 1) ' ') = false)) ∧
    (∀ (n : Node) (ty mods : Nat) (st : SemSt),
      findNameInLine source n.span.lineStart n.span.columnStart nm = none →
      addTokenForNamedDecl source n nm ty mods st = st) := by
  constructor
  · intro c h
    rw [findNameInLine] at h
    split at h
    · exact absurd h (by simp)
    · split at h
      · exact absurd h (by simp)
      · split at h
        · exact absurd h (by simp)
        · rename_i hline hcol hss
          revert h
          cases hsn : searchName (lineWindow source line startCol) nm.data 0 with
          | none => intro h; exact absurd h (by simp)
          | some i =>
              intro h
              have hci : c = startCol + (i : Int) := by
                cases h; rfl
              unfold searchName at hsn
              have hww := searchLoop_some _ _ _ _ _ hsn
              have hic : (c - startCol).toNat = i := by omega
              have hw2 := hww.2
              rw [wholeWordAt] at hw2
              simp only [Bool.and_eq_true, Bool.or_eq_true, decide_eq_true_eq,
                Bool.not_eq_true'] at hw2
              obtain ⟨⟨hmatch, hleft⟩, hright⟩ := hw2
              have hnm : nm.data.length = nm.length := rfl
              refine ⟨by omega, ?_, ?_, ?_⟩
              · rw [hic]; exact hmatch
              · rw [hic]
                rcases hright with h | h
                · exact Or.inl (by omega)
                · exact Or.inr h
              · rcases hleft with h | h
                · exact Or.inl (by omega)
                · exact Or.inr (by rw [hic]; exact h)
  · intro n ty mods st h
    rw [addTokenForNamedDecl]
    split
    · rfl
    · rw [h]

/-- C6 witness: on the line `local x = 1` the search for `x` from column 0
    reports column 6, where `x` occurs with a space on both sides; and a
    search miss (`zz`) emits no token. -/
theorem c6_whole_word_search_witness :
    ((0 : Int) ≤ 6 ∧
      ((lineWindow "local x = 1".data 1 0).drop (6 - 0 : Int).toNat).take "x".length
        = "x".data ∧
      ((lineWindow "local x = 1".data 1 0).length ≤ (6 - 0 : Int).toNat + "x".length ∨
        isIdentChar ((lineWindow "local x = 1".data 1 0).getD
          ((6 - 0 : Int).toNat + "x".length) ' ') = false) ∧
      ((6 : Int) = 0 ∨
        isIdentChar ((lineWindow "local x = 1".data 1 0).getD
          ((6 - 0 : Int).toNat - 1) ' ') = false)) ∧
    addTokenForNamedDecl "local x = 1".data Demo.var1 "zz" 0 0 initSemSt = initSemSt := by
  constructor
  · exact (c6_whole_word_search "local x = 1".data 1 0 "x").1 6 rfl
  · exact (c6_whole_word_search "local x = 1".data 1 0 "zz").2 Demo.var1 0 0 initSemSt rfl

end Proofs

namespace SemanticTokens

open Quirrel

theorem addToken_inv (l c len : Int) (ty mods : Nat) (st : SemSt)
    (h : TokInv st) : TokInv (addToken l c len ty mods st) := by
  unfold addToken
  split
  · rename_i hc
    intro t ht
    simp only [List.mem_append, List.mem_singleton] at ht
    rcases ht with h1 | rfl
    · exact h t h1
    · exact ⟨hc.1, hc.2⟩
  · exact h

theorem addTokenForNode_inv (n : Node) (len : Int) (ty mods : Nat) (st : SemSt)
    (h : TokInv st) : TokInv (addTokenForNode n len ty mods st) :=
  addToken_inv _ _ _ _ _ _ h

theorem addTokenForNamedDecl_inv (source : List Char) (n : Node) (nm : String)
    (ty mods : Nat) (st : SemSt) (h : TokInv st) :
    TokInv (addTokenForNamedDecl source n nm ty mods st) := by
  unfold addTokenForNamedDecl
  split
  · exact h
  · split
    · exact addToken_inv _ _ _ _ _ _ h
    · exact h

theorem declareSymbol_inv (nm : String) (nd : Node) (k : String) (ro : Bool) (st : SemSt)
    (h : TokInv st) : TokInv (declareSymbol nm nd k ro st) := by
  unfold declareSymbol
  split
  · exact h
  · intro t ht
    exact h t ht

theorem pushScope_inv (st : SemSt) (h : TokInv st) : TokInv (pushScope st) :=
  fun t ht => h t ht

theorem popScope_inv (st : SemSt) (h : TokInv st) : TokInv (popScope st) := by
  unfold popScope
  split
  · intro t ht
    exact h t ht
  · exact h

theorem declareParams_inv (ps : List Node) (st : SemSt) (h : TokInv st) :
    TokInv (declareParams ps st) := by
  induction ps generalizing st with
  | nil => exact h
  | cons p pr ih =>
      rw [declareParams]
      split
      · exact ih _ (declareSymbol_inv _ _ _ _ _ (addTokenForNode_inv _ _ _ _ _ h))
      · exact ih _ h

theorem declareDestructured_inv (source : List Char) (ds : List Node) (st : SemSt)
    (h : TokInv st) : TokInv (declareDestructured source ds st) := by
  induction ds generalizing st with
  | nil => exact h
  | cons d dr ih =>
      rw [declareDestructured]
      split
      · exact ih _ (declareSymbol_inv _ _ _ _ _ (addTokenForNamedDecl_inv _ _ _ _ _ _ h))
      · exact ih _ h

theorem declareImportSlots_inv (source : List Char) (imp : Node)
    (slots : List ImportSlot) (st : SemSt) (h : TokInv st) :
    TokInv (declareImportSlots source imp slots st) := by
  induction slots generalizing st with
  | nil => exact h
  | cons s ss ih =>
      rw [declareImportSlots]
      split
      · exact ih _ h
      · split
        · split
          · exact ih _ (declareSymbol_inv _ _ _ _ _ (addToken_inv _ _ _ _ _ _ h))
          · exact ih _ (declareSymbol_inv _ _ _ _ _ h)
        · exact ih _ (declareSymbol_inv _ _ _ _ _ (addToken_inv _ _ _ _ _ _ h))

set_option maxHeartbeats 2000000 in
theorem semVisit_tokInv (source : List Char) : ∀ (n : Node) (st : SemSt),
    TokInv st → TokInv (semVisit source n st) := by
  apply semVisit.induct source
    (fun n st => TokInv st → TokInv (semVisit source n st))
    (fun l st => TokInv st → TokInv (semVisitCases source l st))
    (fun o st => TokInv st → TokInv (semVisitOpt source o st))
    (fun l st => TokInv st → TokInv (semVisitMembers source l st))
    (fun l st => TokInv st → TokInv (semVisitList source l st))
  case case1 =>
    intro st stmts span st1 ih h
    exact ih h
  case case2 =>
    intro st isRoot stmts span st1 hroot ih h
    have h1 : st1 = pushScope st := by simp only [st1, if_neg hroot]
    rw [h1] at ih
    simp only [semVisit, if_neg hroot]
    exact popScope_inv _ (ih (pushScope_inv _ h))
  case case3 =>
    intro st isCtor name params body span st1 st2 st3 ih h
    have h1 : TokInv st1 := by
      simp only [st1]
      split
      · exact declareSymbol_inv _ _ _ _ _ (addTokenForNamedDecl_inv _ _ _ _ _ _ h)
      · exact h
    exact popScope_inv _ (ih (declareParams_inv _ _ (pushScope_inv _ h1)))
  case case4 =>
    intro st classKey classBase members span st1 st2 ihBase ihMembers h
    have h1 : TokInv st1 := by
      simp only [st1]
      split
      · exact declareSymbol_inv _ _ _ _ _ (addTokenForNode_inv _ _ _ _ _ h)
      · exact h
    exact ihMembers (ihBase h1)
  case case5 =>
    intro st name consts span hn h
    simp only [semVisit, if_pos hn]
    exact declareSymbol_inv _ _ _ _ _ (addTokenForNamedDecl_inv _ _ _ _ _ _ h)
  case case6 =>
    intro st name consts span hn h
    simp only [semVisit, if_neg hn]
    exact h
  case case7 =>
    intro st name assignable init span hn ih h
    simp only [semVisit, if_pos hn]
    exact declareSymbol_inv _ _ _ _ _ (addTokenForNamedDecl_inv _ _ _ _ _ _ (ih h))
  case case8 =>
    intro st name assignable init span hn ih h
    simp only [semVisit, if_neg hn]
    exact ih h
  case case9 =>
    intro st name val span hn ih h
    simp only [semVisit, if_pos hn]
    exact declareSymbol_inv _ _ _ _ _ (addTokenForNamedDecl_inv _ _ _ _ _ _ (ih h))
  case case10 =>
    intro st name val span hn ih h
    simp only [semVisit, if_neg hn]
    exact ih h
  case case11 =>
    intro st decls span ih h
    exact ih h
  case case12 =>
    intro st initExpr decls span ih h
    exact declareDestructured_inv _ _ _ (ih h)
  case case13 =>
    intro st slots span hempty name h
    simp only [semVisit, if_pos hempty]
    apply declareSymbol_inv
    split
    · split
      · exact addToken_inv _ _ _ _ _ _ h
      · exact h
    · exact h
  case case14 =>
    intro st slots span hempty h
    simp only [semVisit, if_pos hempty]
    exact h
  case case15 =>
    intro st moduleAlias slots span hempty h
    simp only [semVisit, if_neg hempty]
    exact declareImportSlots_inv _ _ _ _ h
  case case16 =>
    intro st idx val container body span st1 st2 st3 st4 ihC ihB h
    have h1 : TokInv st1 := ihC h
    have h2 : TokInv st2 := pushScope_inv _ h1
    have h3 : TokInv st3 := by
      simp only [st3]
      split
      · split
        · exact declareSymbol_inv _ _ _ _ _ (addTokenForNamedDecl_inv _ _ _ _ _ _ h2)
        · exact h2
      · exact h2
    have h4 : TokInv st4 := by
      simp only [st4]
      split
      · split
        · exact declareSymbol_inv _ _ _ _ _ (addTokenForNamedDecl_inv _ _ _ _ _ _ h3)
        · exact h3
      · exact h3
    exact popScope_inv _ (ihB h4)
  case case17 =>
    intro st init cond modifier body span st1 st2 st3 st4 ih1 ih2 ih3 ih4 h
    exact popScope_inv _ (ih4 (ih3 (ih2 (ih1 (pushScope_inv _ h)))))
  case case18 =>
    intro st cond body span ih1 ih2 h
    exact ih2 (ih1 h)
  case case19 =>
    intro st body cond span ih1 ih2 h
    exact ih2 (ih1 h)
  case case20 =>
    intro st tryBody exceptionId catchBody span st1 st2 st3 ihT ihC h
    have h1 : TokInv st1 := ihT h
    have h2 : TokInv st2 := pushScope_inv _ h1
    have h3 : TokInv st3 := by
      simp only [st3]
      split
      · split
        · exact declareSymbol_inv _ _ _ _ _ (addTokenForNode_inv _ _ _ _ _ h2)
        · exact h2
      · exact h2
    exact popScope_inv _ (ihC h3)
  case case21 =>
    intro st cond thenBranch elseBranch span ih1 ih2 ih3 h
    exact ih3 (ih2 (ih1 h))
  case case22 =>
    intro st expr cases defaultCase span st1 st2 ih1 ih2 ih3 h
    exact ih3 (ih2 (ih1 h))
  case case23 =>
    intro st arg span ih h
    exact ih h
  case case24 =>
    intro st expr span ih h
    exact ih h
  case case25 =>
    intro st name sp hcond h
    simp only [semVisit, if_pos hcond]
    exact h
  case case26 =>
    intro st name sp hcond s hfind h
    simp only [semVisit, if_neg hcond, hfind]
    exact addToken_inv _ _ _ _ _ _ h
  case case27 =>
    intro st name sp hcond hfind h
    simp only [semVisit, if_neg hcond, hfind]
    exact h
  case case28 =>
    intro st decl span ih h
    exact ih h
  case case29 =>
    intro st callee args span st1 ih1 ih2 h
    exact ih2 (ih1 h)
  case case30 =>
    intro st fieldName span val recv hfn enumSym hsym h
    simp only [enumSym] at hsym
    simp only [semVisit]
    rw [hsym]
    show TokInv (if fieldName ≠ "" then
      addToken span.lineEnd (span.columnEnd - (fieldName.length : Int))
        (fieldName.length : Int) ttEnumMember tmReadonly
        (addTokenForNode recv ((recv.declName.length : Int)) ttEnum 0 st)
      else addTokenForNode recv ((recv.declName.length : Int)) ttEnum 0 st)
    rw [if_pos hfn]
    exact addToken_inv _ _ _ _ _ _ (addTokenForNode_inv _ _ _ _ _ h)
  case case31 =>
    intro st fieldName span val recv hfn enumSym hsym h
    simp only [enumSym] at hsym
    simp only [semVisit]
    rw [hsym]
    show TokInv (if fieldName ≠ "" then
      addToken span.lineEnd (span.columnEnd - (fieldName.length : Int))
        (fieldName.length : Int) ttEnumMember tmReadonly
        (addTokenForNode recv ((recv.declName.length : Int)) ttEnum 0 st)
      else addTokenForNode recv ((recv.declName.length : Int)) ttEnum 0 st)
    rw [if_neg hfn]
    exact addTokenForNode_inv _ _ _ _ _ h
  case case32 =>
    intro st receiver fieldName span enumSym hfn hne ih h
    simp only [semVisit]
    rw [if_pos hfn]
    exact addToken_inv _ _ _ _ _ _ (ih h)
  case case33 =>
    intro st receiver fieldName span enumSym hfn hne ih h
    simp only [semVisit]
    rw [if_neg hfn]
    exact ih h
  case case34 =>
    intro st receiver val span ih1 ih2 h
    exact ih2 (ih1 h)
  case case35 =>
    intro st receiver key span ih1 ih2 h
    exact ih2 (ih1 h)
  case case36 =>
    intro st receiver key val span ih1 ih2 ih3 h
    exact ih3 (ih2 (ih1 h))
  case case37 =>
    intro st a b c span ih1 ih2 ih3 h
    exact ih3 (ih2 (ih1 h))
  case case38 =>
    intro st inits span ih h
    exact ih h
  case case39 =>
    intro st exprs span ih h
    exact ih h
  case case40 =>
    intro st members span ih h
    exact ih h
  case case41 =>
    intro st blk span ih h
    exact ih h
  case case42 =>
    intro st lhs rhs span ih1 ih2 h
    exact ih2 (ih1 h)
  case case43 =>
    intro st arg span ih h
    exact ih h
  case case44 =>
    intro st arg span ih h
    exact ih h
  case case45 =>
    intro st name span h
    exact h
  case case46 =>
    intro st isString s span h
    exact h
  case case47 =>
    intro st span h
    exact h
  case case48 =>
    intro st h
    exact h
  case case49 =>
    intro st p ps ih1 ih2 h
    exact ih2 (ih1 h)
  case case50 =>
    intro st v ih h
    exact ih h
  case case51 =>
    intro st h
    exact h
  case case52 =>
    intro st h
    exact h
  case case53 =>
    intro st fst v snd ns ih1 ih2 h
    exact ih2 (ih1 h)
  case case54 =>
    intro st h
    exact h
  case case55 =>
    intro st v s ns ih1 ih2 ih3 h
    exact ih3 (ih2 (ih1 h))

end SemanticTokens


namespace SemanticTokens

open Quirrel

theorem tokenLE_trans (a b c : Token) (h1 : tokenLE a b = true) (h2 : tokenLE b c = true) :
    tokenLE a c = true := by
  simp only [tokenLE, Bool.or_eq_true, Bool.and_eq_true, decide_eq_true_eq] at *
  omega

theorem tokenLE_total (a b : Token) : tokenLE a b = true ∨ tokenLE b a = true := by
  simp only [tokenLE, Bool.or_eq_true, Bool.and_eq_true, decide_eq_true_eq]
  omega

theorem mem_insertToken (u t : Token) (l : List Token) (h : u ∈ insertToken t l) :
    u = t ∨ u ∈ l := by
  induction l with
  | nil =>
      rw [insertToken] at h
      exact .inl (List.mem_singleton.1 h)
  | cons v vs ih =>
      rw [insertToken] at h
      split at h
      · rcases List.mem_cons.1 h with rfl | h2
        · exact .inl rfl
        · exact .inr h2
      · rcases List.mem_cons.1 h with rfl | h2
        · exact .inr (List.mem_cons_self _ _)
        · rcases ih h2 with h3 | h3
          · exact .inl h3
          · exact .inr (List.mem_cons_of_mem _ h3)

theorem insertToken_pairwise (t : Token) (l : List Token)
    (h : l.Pairwise (fun a b => tokenLE a b = true)) :
    (insertToken t l).Pairwise (fun a b => tokenLE a b = true) := by
  induction l with
  | nil => simp [insertToken]
  | cons v vs ih =>
      rw [insertToken]
      rcases List.pairwise_cons.1 h with ⟨hv, hvs⟩
      split
      · rename_i htv
        refine List.pairwise_cons.2 ⟨fun x hx => ?_, h⟩
        rcases List.mem_cons.1 hx with rfl | h2
        · exact htv
        · exact tokenLE_trans _ _ _ htv (hv x h2)
      · rename_i htv
        have hvt : tokenLE v t = true := by
          rcases tokenLE_total t v with h1 | h1
          · exact absurd h1 htv
          · exact h1
        refine List.pairwise_cons.2 ⟨fun x hx => ?_, ih hvs⟩
        rcases mem_insertToken x t vs hx with rfl | h2
        · exact hvt
        · exact hv x h2

theorem sortTokens_pairwise (l : List Token) :
    (sortTokens l).Pairwise (fun a b => tokenLE a b = true) := by
  induction l with
  | nil => simp [sortTokens]
  | cons t ts ih =>
      rw [sortTokens]
      exact insertToken_pairwise _ _ ih

theorem mem_sortTokens (u : Token) (l : List Token) (h : u ∈ sortTokens l) : u ∈ l := by
  induction l with
  | nil =>
      rw [sortTokens] at h
      exact h
  | cons t ts ih =>
      rw [sortTokens] at h
      rcases mem_insertToken u t (sortTokens ts) h with rfl | h2
      · exact List.mem_cons_self _ _
      · exact List.mem_cons_of_mem _ (ih h2)

end SemanticTokens

namespace Proofs

open Quirrel

/-- C5: for every source text and parsed tree, the semantic-token list produced
    by the classifier is sorted ascending by (line, column), and every token in
    it has positive length and non-negative column. -/
theorem c5_tokens_sorted_and_valid (source : List Char) (root : Node) :
    (SemanticTokens.semanticTokenList source root).Pairwise
      (fun a b => SemanticTokens.tokenLE a b = true) ∧
    ∀ t ∈ SemanticTokens.semanticTokenList source root,
      0 < t.length ∧ 0 ≤ t.col := by
  constructor
  · exact SemanticTokens.sortTokens_pairwise _
  · intro t ht
    have h0 : SemanticTokens.TokInv SemanticTokens.initSemSt := by
      intro u hu
      simp [SemanticTokens.initSemSt] at hu
    have hinv := SemanticTokens.semVisit_tokInv source root SemanticTokens.initSemSt h0
    exact hinv t (SemanticTokens.mem_sortTokens _ _ ht)

/-- C5 witness: a concrete class declaration yields the class-name token, and
    the theorem certifies its validity. -/
theorem c5_tokens_sorted_and_valid_witness :
    Demo.semTok ∈ SemanticTokens.semanticTokenList "class C {}".data Demo.semClassRoot ∧
    0 < Demo.semTok.length ∧ 0 ≤ Demo.semTok.col :=
  ⟨by decide, (c5_tokens_sorted_and_valid "class C {}".data Demo.semClassRoot).2
    Demo.semTok (by decide)⟩

end Proofs
